import Mathlib

/-!
# Attack Graph Automation Engine — shallow embedding and verification

This file embeds the graph-automation core of the incident-response platform
(`backend/app/services/graph_automation_service.py` together with the entity
shapes it manipulates) as executable Lean definitions, and proves the spec's
claims about it.

Modelling conventions:
* Database primary keys (UUIDs) are modelled as `Nat`; the graph store carries
  a `nextId` allocator standing for globally-unique id generation at flush time.
* SQLAlchemy sessions autoflush before queries, so pending adds are visible to
  the existence-check queries; the model therefore applies adds to the store
  immediately.
* `DateTime` columns are modelled as `Int` instants.
* Python string truthiness (`None` and `""` falsy) is modelled explicitly.
* Python exceptions that the service code itself can raise (attribute access on
  `None`) are modelled with `Except String`.
-/

namespace SheetStorm

/-- Python truthiness of an optional string: `None` and `""` are falsy. -/
def strTruthy : Option String → Bool
  | none => false
  | some s => s ≠ ""

/-- ASCII lower-casing of one character (models `str.lower` on the ASCII
hostnames/IPs this service handles). -/
def asciiLowerChar (c : Char) : Char :=
  if 'A' ≤ c && c ≤ 'Z' then Char.ofNat (c.toNat + 32) else c

/-- Models Python `str.lower()`. -/
def pyLower (s : String) : String := ⟨s.data.map asciiLowerChar⟩

/-- Drop leading whitespace from a character list. -/
def dropLeadingWs : List Char → List Char
  | [] => []
  | c :: cs => if c.isWhitespace then dropLeadingWs cs else c :: cs

/-- Models Python `str.strip()`. -/
def pyStrip (s : String) : String :=
  ⟨((dropLeadingWs s.data).reverse |> dropLeadingWs).reverse⟩

/-- Models Python `s.replace('.', '')`. -/
def removeDots (s : String) : String := ⟨s.data.filter (fun c => c ≠ '.')⟩

/-- Models Python `str.isdigit()` (ASCII digits; empty string is falsy). -/
def pyIsDigit (s : String) : Bool := s.data ≠ [] && s.data.all (·.isDigit)

/-- `listStartsWith pat l` : `pat` is a leading segment of `l`. -/
def listStartsWith : List Char → List Char → Bool
  | [], _ => true
  | _ :: _, [] => false
  | a :: as, b :: bs => a = b && listStartsWith as bs

/-- `listHasSegment pat l` : `pat` occurs contiguously inside `l`. -/
def listHasSegment (pat : List Char) : List Char → Bool
  | [] => listStartsWith pat []
  | c :: cs => listStartsWith pat (c :: cs) || listHasSegment pat cs

/-- Models Python `pat in s` (substring containment). -/
def strContains (s pat : String) : Bool := listHasSegment pat.data s.data

/-- Stable insertion of `x` into `l`: `x` goes before the first element `y`
with `¬ lt y x`.  `sortByLt` below is therefore a stable sort, modelling SQL
`ORDER BY … ASC` whose ties are broken by the underlying read order. -/
def stableInsert (lt : α → α → Bool) (x : α) : List α → List α
  | [] => [x]
  | y :: ys => if lt y x then y :: stableInsert lt x ys else x :: y :: ys

/-- Stable sort by a strict comparison, modelling SQL `ORDER BY … ASC`. -/
def sortByLt (lt : α → α → Bool) : List α → List α
  | [] => []
  | x :: xs => stableInsert lt x (sortByLt lt xs)

/-- A JSON-ish scalar, for the `extra_data` maps carried by graph entities. -/
inductive JVal where
  | s (v : String)
  | b (v : Bool)
  | i (v : Int)
  | null
deriving DecidableEq, Repr

/-- Lift an optional string into `JVal` (`None` becomes JSON null). -/
def jstr : Option String → JVal
  | none => .null
  | some v => .s v

/-- Lift an optional integer into `JVal`. -/
def jint : Option Int → JVal
  | none => .null
  | some v => .i v

/-! ## Source entities (read-only to this core)

Fields are restricted to the columns the graph-automation service reads. -/

/-- `compromised_hosts` row (`app/models/compromised.py`). `hostname` is a
NOT NULL column; `ip_address` is a nullable INET rendered through `str(...)`. -/
structure CompromisedHost where
  id : Nat
  incidentId : Nat
  hostname : String
  ipAddress : Option String := none
  systemType : Option String := none
  firstSeen : Option Int := none
  containmentStatus : Option String := none
deriving DecidableEq, Repr

/-- `compromised_accounts` row (columns read by the service). -/
structure CompromisedAccount where
  id : Nat
  incidentId : Nat
  hostId : Option Nat := none
  hostSystem : Option String := none
  accountName : String
  domain : Option String := none
  accountType : String := "local"
  isPrivileged : Bool := false
  status : Option String := none
  sid : Option String := none
deriving DecidableEq, Repr

/-- `malware_tools` row (columns read by the service). -/
structure MalwareTool where
  id : Nat
  incidentId : Nat
  hostId : Option Nat := none
  host : Option String := none
  fileName : String
  malwareFamily : Option String := none
  sha256 : Option String := none
  md5 : Option String := none
  isTool : Bool := false
  filePath : Option String := none
  threatActor : Option String := none
deriving DecidableEq, Repr

/-- `host_based_indicators` row (columns read by the service). -/
structure HostBasedIndicator where
  id : Nat
  incidentId : Nat
  hostId : Option Nat := none
  host : Option String := none
  artifactType : String
  artifactValue : String
  isMalicious : Bool := true
  remediated : Bool := false
  notes : Option String := none
deriving DecidableEq, Repr

/-- `network_indicators` row (columns read by the service); `dns_ip` is
NOT NULL. -/
structure NetworkIndicator where
  id : Nat
  incidentId : Nat
  hostId : Option Nat := none
  sourceHost : Option String := none
  dnsIp : String
  direction : Option String := none
  isMalicious : Bool := true
  protocol : Option String := none
  port : Option Int := none
  description : Option String := none
  destinationHost : Option String := none
  threatIntelSource : Option String := none
deriving DecidableEq, Repr

/-- `timeline_events` row (columns read by the service). -/
structure TimelineEvent where
  id : Nat
  incidentId : Nat
  timestamp : Int
  hostId : Option Nat := none
  hostname : Option String := none
  activity : String
  source : Option String := none
  mitreTactic : Option String := none
  mitreTechnique : Option String := none
  createdBy : Nat
deriving DecidableEq, Repr

/-! ## Graph entities (read/write) -/

/-- `attack_graph_nodes` row (`app/models/attack_graph.py`). -/
structure AttackGraphNode where
  id : Nat
  incidentId : Nat
  nodeType : String
  label : String
  compromisedHostId : Option Nat := none
  compromisedAccountId : Option Nat := none
  positionX : Int := 0
  positionY : Int := 0
  isInitialAccess : Bool := false
  isObjective : Bool := false
  extraData : List (String × JVal) := []
  createdBy : Nat
deriving DecidableEq, Repr

/-- `attack_graph_edges` row.  The row's own primary key is generated by the
store and never read back by this core, so it is not modelled. -/
structure AttackGraphEdge where
  incidentId : Nat
  sourceNodeId : Nat
  targetNodeId : Nat
  edgeType : String
  label : Option String := none
  mitreTactic : Option String := none
  mitreTechnique : Option String := none
  timestamp : Option Int := none
  description : Option String := none
  createdBy : Nat
deriving DecidableEq, Repr

/-- The read-only source tables, in underlying read ("insertion") order. -/
structure Db where
  hosts : List CompromisedHost := []
  accounts : List CompromisedAccount := []
  malware : List MalwareTool := []
  hostIndicators : List HostBasedIndicator := []
  networkIndicators : List NetworkIndicator := []
  events : List TimelineEvent := []
deriving Repr

/-- The mutable graph store (the session's view of the node/edge tables).
`nextId` models the globally-unique primary-key allocator: every node id ever
issued is `< nextId`. -/
structure GraphStore where
  nodes : List AttackGraphNode := []
  edges : List AttackGraphEdge := []
  nextId : Nat := 0
deriving Repr, DecidableEq

/-! ## Store queries and primitive operations -/

/-- Association-list lookup (models a Python `dict` built with cons-to-front
insertion, so the first match is the most recent assignment). -/
def alookup [BEq α] (m : List (α × β)) (k : α) : Option β :=
  (m.find? (fun p => p.1 == k)).map (·.2)

/-- Strict comparison for `ORDER BY first_seen ASC NULLS LAST`. -/
def firstSeenLt (a b : CompromisedHost) : Bool :=
  match a.firstSeen, b.firstSeen with
  | some x, some y => x < y
  | some _, none => true
  | none, _ => false

/-- `CompromisedHost.query.filter_by(incident_id=...).order_by(first_seen.asc().nullslast()).all()` -/
def hostsOfIncident (db : Db) (inc : Nat) : List CompromisedHost :=
  sortByLt firstSeenLt (db.hosts.filter (fun h => h.incidentId == inc))

/-- `TimelineEvent.query.filter_by(incident_id=...).filter(host_id.isnot(None)).order_by(timestamp.asc()).all()` -/
def eventsOfIncident (db : Db) (inc : Nat) : List TimelineEvent :=
  sortByLt (fun a b => a.timestamp < b.timestamp)
    (db.events.filter (fun ev => ev.incidentId == inc && ev.hostId.isSome))

/-- `{h.hostname.lower(): str(h.id) for h in hosts if h.hostname}` — built over
the ordered host list; a later duplicate hostname overwrites an earlier one. -/
def hostnameToId (hosts : List CompromisedHost) : List (String × Nat) :=
  hosts.foldl (fun m h => if h.hostname ≠ "" then (pyLower h.hostname, h.id) :: m else m) []

/-- `ip_to_host_id[str(h.ip_address).lower()] = str(h.id)` for hosts with a
(truthy) `ip_address`. -/
def ipToHostId (hosts : List CompromisedHost) : List (String × Nat) :=
  hosts.foldl (fun m h =>
    match h.ipAddress with
    | some ip => if ip ≠ "" then (pyLower ip, h.id) :: m else m
    | none => m) []

/-- `GraphAutomationService._resolve_host_id`: FK wins unconditionally, else
normalize the text and try the hostname index, then the ip index. -/
def resolve_host_id (objHostId : Option Nat) (textHostname : Option String)
    (hnIdx ipIdx : List (String × Nat)) : Option Nat :=
  match objHostId with
  | some hid => some hid
  | none =>
    match textHostname with
    | some t =>
      if t ≠ "" then
        let key := pyLower (pyStrip t)
        match alookup hnIdx key with
        | some v => some v
        | none => alookup ipIdx key
      else none
    | none => none

/-- `grouped.setdefault(hid, []).append(item)`. -/
def addToGroup (g : List (Nat × List α)) (k : Nat) (x : α) : List (Nat × List α) :=
  match g with
  | [] => [(k, [x])]
  | (k', xs) :: rest =>
    if k' == k then (k', xs ++ [x]) :: rest else (k', xs) :: addToGroup rest k x

/-- `GraphAutomationService._group_by_host`: partition items by resolved host id,
dropping items that resolve to `None`.  `fkOf`/`textOf` model `item.host_id` and
`getattr(item, host_attr, None)`. -/
def group_by_host (items : List α) (fkOf : α → Option Nat) (textOf : α → Option String)
    (hnIdx ipIdx : List (String × Nat)) : List (Nat × List α) :=
  items.foldl (fun g it =>
    match resolve_host_id (fkOf it) (textOf it) hnIdx ipIdx with
    | some hid => addToGroup g hid it
    | none => g) []

/-- `grouped.get(str(host.id), [])`. -/
def groupGet (g : List (Nat × List α)) (k : Nat) : List α :=
  match alookup g k with
  | some xs => xs
  | none => []

/-- `GraphAutomationService._infer_node_type`. -/
def infer_node_type (h : CompromisedHost) : String :=
  match h.systemType with
  | some st =>
    if st ≠ "" then
      let s := pyLower st
      if strContains s "domain_controller" || strContains s "dc" then "domain_controller"
      else if strContains s "server" then "server"
      else "workstation"
    else "workstation"
  | none => "workstation"

/-- Delete all edges, then all nodes, of the incident
(`AttackGraphEdge.query.filter_by(incident_id=...).delete()` and likewise for
nodes). -/
def clear_graph (inc : Nat) (s : GraphStore) : GraphStore :=
  { s with edges := s.edges.filter (fun e => e.incidentId ≠ inc),
           nodes := s.nodes.filter (fun n => n.incidentId ≠ inc) }

/-- `AttackGraphEdge.query.filter_by(source_node_id=…, target_node_id=…, edge_type=…).first()`
(no incident filter at the two bulk-mode check sites). -/
def edge_exists (s : GraphStore) (src tgt : Nat) (ty : String) : Bool :=
  s.edges.any (fun e => e.sourceNodeId == src && e.targetNodeId == tgt && e.edgeType == ty)

/-- The incremental updater's duplicate check, which additionally filters by
incident. -/
def edge_exists_incident (s : GraphStore) (inc src tgt : Nat) (ty : String) : Bool :=
  s.edges.any (fun e =>
    e.incidentId == inc && e.sourceNodeId == src && e.targetNodeId == tgt && e.edgeType == ty)

/-- In-place mutation of a fetched ORM node object, persisted at commit. -/
def update_node (s : GraphStore) (nodeId : Nat) (f : AttackGraphNode → AttackGraphNode) :
    GraphStore :=
  { s with nodes := s.nodes.map (fun n => if n.id == nodeId then f n else n) }

/-- `db.session.add(node); db.session.flush()` — the node receives the next
fresh primary key (callers embed `s.nextId` into the node before pushing). -/
def push_node (s : GraphStore) (n : AttackGraphNode) : GraphStore :=
  { s with nodes := s.nodes ++ [n], nextId := s.nextId + 1 }

/-- `db.session.add(edge)` (edge rows are keyed by a store-generated id that is
never read back, so only the row content is tracked). -/
def push_edge (s : GraphStore) (e : AttackGraphEdge) : GraphStore :=
  { s with edges := s.edges ++ [e] }

/-! ## Graph Builder (bulk mode) -/

/-- `GraphAutomationService._create_host_node` (position grid: 4 columns,
600×500 spacing; the first host in order is flagged initial access). -/
def create_host_node (inc : Nat) (host : CompromisedHost) (index : Nat) (userId : Nat)
    (nodeId : Nat) : AttackGraphNode :=
  { id := nodeId
    incidentId := inc
    nodeType := infer_node_type host
    label := host.hostname
    compromisedHostId := some host.id
    positionX := 300 + (Int.ofNat (index % 4)) * 600
    positionY := 400 + (Int.ofNat (index / 4)) * 500
    isInitialAccess := index == 0
    isObjective := false
    extraData := [("containment_status", jstr host.containmentStatus),
                  ("ip_address", jstr host.ipAddress)]
    createdBy := userId }

/-- Account sub-node label: `f"{acc.domain}\\{acc.account_name}"` when the
domain is truthy, else the bare account name. -/
def accountLabel (acc : CompromisedAccount) : String :=
  match acc.domain with
  | some d => if d ≠ "" then d ++ "\\" ++ acc.accountName else acc.accountName
  | none => acc.accountName

/-- Account sub-node (id and position are assigned later, at flush /
positioning time). -/
def mkAccountNode (inc : Nat) (host : CompromisedHost) (userId : Nat)
    (acc : CompromisedAccount) : AttackGraphNode :=
  { id := 0
    incidentId := inc
    nodeType := "user"
    label := accountLabel acc
    compromisedAccountId := some acc.id
    extraData := [("account_type", .s acc.accountType), ("is_privileged", .b acc.isPrivileged),
                  ("domain", jstr acc.domain), ("status", jstr acc.status),
                  ("sid", jstr acc.sid), ("host_system", .s host.hostname)]
    createdBy := userId }

/-- Malware sub-node. -/
def mkMalwareNode (inc : Nat) (host : CompromisedHost) (userId : Nat)
    (mal : MalwareTool) : AttackGraphNode :=
  { id := 0
    incidentId := inc
    nodeType := "malware"
    label := mal.fileName
    extraData := [("malware_family", jstr mal.malwareFamily), ("sha256", jstr mal.sha256),
                  ("md5", jstr mal.md5), ("is_tool", .b mal.isTool),
                  ("file_path", jstr mal.filePath), ("threat_actor", jstr mal.threatActor),
                  ("host_system", .s host.hostname)]
    createdBy := userId }

/-- Host-indicator sub-node (label truncates the artifact value to 60 chars). -/
def mkIndicatorNode (inc : Nat) (host : CompromisedHost) (userId : Nat)
    (ind : HostBasedIndicator) : AttackGraphNode :=
  { id := 0
    incidentId := inc
    nodeType := "host_indicator"
    label := ind.artifactType ++ ": " ++ ind.artifactValue.take 60
    extraData := [("artifact_type", .s ind.artifactType), ("artifact_value", .s ind.artifactValue),
                  ("is_malicious", .b ind.isMalicious), ("remediated", .b ind.remediated),
                  ("notes", jstr ind.notes), ("host_system", .s host.hostname)]
    createdBy := userId }

/-- The `sub_elements` list of `_create_sub_nodes`: account nodes, then malware
nodes, then host-indicator nodes of this host's groups. -/
def sub_elements (inc : Nat) (host : CompromisedHost) (userId : Nat)
    (accG : List (Nat × List CompromisedAccount)) (malG : List (Nat × List MalwareTool))
    (indG : List (Nat × List HostBasedIndicator)) : List AttackGraphNode :=
  (groupGet accG host.id).map (mkAccountNode inc host userId)
    ++ (groupGet malG host.id).map (mkMalwareNode inc host userId)
    ++ (groupGet indG host.id).map (mkIndicatorNode inc host userId)

/-- Positioning of one pending sub-node at flush time: it receives its fresh id
and its place around the host node.  The circular offset (`180 * cos/sin` over
floats) is not representable here and is irrelevant to every claim; positions
are modelled as the host's coordinates. -/
def place_sub (hostNode p : AttackGraphNode) (nid : Nat) : AttackGraphNode :=
  { p with id := nid, positionX := hostNode.positionX, positionY := hostNode.positionY }

/-- The unconditional `associated_with` edge from a host node to one of its
sub-nodes. -/
def mkSubEdge (inc userId : Nat) (hostNode n : AttackGraphNode) : AttackGraphEdge :=
  { incidentId := inc, sourceNodeId := hostNode.id, targetNodeId := n.id,
    edgeType := "associated_with", label := some "Associated", createdBy := userId }

/-- The positioning/linking loop of `_create_sub_nodes`: each pending sub-node
is positioned around the host node, added and flushed (receiving its id), and
connected with an unconditional `associated_with` edge. -/
def sub_loop (inc userId : Nat) (hostNode : AttackGraphNode) :
    List AttackGraphNode → GraphStore →
    GraphStore × List AttackGraphNode × List AttackGraphEdge
  | [], s => (s, [], [])
  | p :: rest, s =>
    let n := place_sub hostNode p s.nextId
    let e := mkSubEdge inc userId hostNode n
    let s2 := push_edge (push_node s n) e
    let (s3, ns, es) := sub_loop inc userId hostNode rest s2
    (s3, n :: ns, e :: es)

/-- The host loop of `auto_generate` (steps 1–2): create each host node in
order with its running index, record it in `node_map`, then create its
sub-nodes. -/
def host_loop (inc userId : Nat)
    (accG : List (Nat × List CompromisedAccount)) (malG : List (Nat × List MalwareTool))
    (indG : List (Nat × List HostBasedIndicator)) :
    List CompromisedHost → Nat → GraphStore → List (Nat × AttackGraphNode) →
    GraphStore × List (Nat × AttackGraphNode) × List AttackGraphNode × List AttackGraphEdge
  | [], _, s, m => (s, m, [], [])
  | h :: rest, i, s, m =>
    let hn := create_host_node inc h i userId s.nextId
    let m1 := (h.id, hn) :: m
    let (s2, sns, ses) :=
      sub_loop inc userId hn (sub_elements inc h userId accG malG indG) (push_node s hn)
    let (s3, m2, ns, es) := host_loop inc userId accG malG indG rest (i + 1) s2 m1
    (s3, m2, hn :: (sns ++ ns), ses ++ es)

/-- A deduplicated network-IOC node (`node_type='ip_address'`), labelled by the
indicator's `dns_ip` and positioned on the wrapping grid. -/
def mkNetIocNode (inc userId : Nat) (ioc : NetworkIndicator) (x y : Int) (nid : Nat) :
    AttackGraphNode :=
  { id := nid, incidentId := inc, nodeType := "ip_address", label := ioc.dnsIp,
    positionX := x, positionY := y,
    extraData := [("direction", jstr ioc.direction), ("is_malicious", .b ioc.isMalicious),
                  ("protocol", jstr ioc.protocol), ("port", jint ioc.port),
                  ("description", jstr ioc.description),
                  ("destination_host", jstr ioc.destinationHost),
                  ("threat_intel_source", jstr ioc.threatIntelSource)],
    createdBy := userId }

/-- An `associated_with` edge from a host node to a network-IOC node. -/
def mkIocEdge (inc : Nat) (hostNode iocNode : AttackGraphNode) (ioc : NetworkIndicator)
    (userId : Nat) : AttackGraphEdge :=
  { incidentId := inc, sourceNodeId := hostNode.id, targetNodeId := iocNode.id,
    edgeType := "associated_with",
    label := some (match ioc.direction with
      | some d => if d ≠ "" then d else "Network IOC"
      | none => "Network IOC"),
    createdBy := userId }

/-- `GraphAutomationService._create_network_ioc_nodes`: one node per unique
`dns_ip` among indicators whose host resolves to a node of this run; repeat
occurrences only add an `associated_with` edge from the additional host unless
one already exists.  `x`/`y` is the wrapping placement grid. -/
def net_loop (inc userId : Nat) (nodeMap : List (Nat × AttackGraphNode))
    (hnIdx ipIdx : List (String × Nat)) :
    List NetworkIndicator → List (String × AttackGraphNode) → Int → Int → GraphStore →
    GraphStore × List AttackGraphNode × List AttackGraphEdge
  | [], _, _, _, s => (s, [], [])
  | ioc :: rest, ipMap, x, y, s =>
    match resolve_host_id ioc.hostId ioc.sourceHost hnIdx ipIdx with
    | none => net_loop inc userId nodeMap hnIdx ipIdx rest ipMap x y s
    | some hid =>
      match alookup nodeMap hid with
      | none => net_loop inc userId nodeMap hnIdx ipIdx rest ipMap x y s
      | some hostNode =>
        match alookup ipMap ioc.dnsIp with
        | some existingNode =>
          if edge_exists s hostNode.id existingNode.id "associated_with" then
            net_loop inc userId nodeMap hnIdx ipIdx rest ipMap x y s
          else
            let e := mkIocEdge inc hostNode existingNode ioc userId
            let (s2, ns, es) :=
              net_loop inc userId nodeMap hnIdx ipIdx rest ipMap x y (push_edge s e)
            (s2, ns, e :: es)
        | none =>
          let iocNode := mkNetIocNode inc userId ioc x y s.nextId
          let ipMap1 := (ioc.dnsIp, iocNode) :: ipMap
          let x1 := x + 150
          let x2 := if x1 > 1200 then 100 else x1
          let y2 := if x1 > 1200 then y + 120 else y
          let e := mkIocEdge inc hostNode iocNode ioc userId
          let (s3, ns, es) :=
            net_loop inc userId nodeMap hnIdx ipIdx rest ipMap1 x2 y2
              (push_edge (push_node s iocNode) e)
          (s3, iocNode :: ns, e :: es)

/-- `GraphAutomationService._create_lateral_movement_edges`: walk the
host-bearing events in timestamp order keeping the previous host; on every host
change create a `lateral_movement` edge between the two host nodes unless one
already exists. -/
def mkBulkLateralEdge (inc userId : Nat) (src tgt : AttackGraphNode) (ev : TimelineEvent) :
    AttackGraphEdge :=
  { incidentId := inc, sourceNodeId := src.id, targetNodeId := tgt.id,
    edgeType := "lateral_movement",
    label := some (ev.activity.take 50),
    mitreTactic := ev.mitreTactic,
    timestamp := some ev.timestamp,
    createdBy := userId }

/-- One step of the lateral walk: the edge to create for this event given the
previous host, or `none` (same host, unmapped host, or duplicate edge). -/
def lateral_step (inc userId : Nat) (nodeMap : List (Nat × AttackGraphNode))
    (ev : TimelineEvent) (prev : Option Nat) (cur : Nat) (s : GraphStore) :
    Option AttackGraphEdge :=
  match prev with
  | some p =>
    if p ≠ cur then
      match alookup nodeMap p, alookup nodeMap cur with
      | some src, some tgt =>
        if edge_exists s src.id tgt.id "lateral_movement" then none
        else some (mkBulkLateralEdge inc userId src tgt ev)
      | _, _ => none
    else none
  | none => none

def lateral_loop (inc userId : Nat) (nodeMap : List (Nat × AttackGraphNode)) :
    List TimelineEvent → Option Nat → GraphStore → GraphStore × List AttackGraphEdge
  | [], _, s => (s, [])
  | ev :: rest, prev, s =>
    match ev.hostId with
    | none =>
      -- unreachable: the source query filters `host_id IS NOT NULL`
      lateral_loop inc userId nodeMap rest prev s
    | some cur =>
      match lateral_step inc userId nodeMap ev prev cur s with
      | none => lateral_loop inc userId nodeMap rest (some cur) s
      | some e =>
        let (s2, es) := lateral_loop inc userId nodeMap rest (some cur) (push_edge s e)
        (s2, e :: es)

/-- `GraphAutomationService.auto_generate`: clear the incident's graph (own
commit), then rebuild host nodes, sub-nodes, network-IOC nodes and lateral
movement edges, and commit.  Returns the final store and the created lists. -/
def auto_generate (db : Db) (inc userId : Nat) (s0 : GraphStore) :
    GraphStore × List AttackGraphNode × List AttackGraphEdge :=
  let s1 := clear_graph inc s0    -- db.session.commit() : first transaction ends here
  let hosts := hostsOfIncident db inc
  if hosts.isEmpty then (s1, [], [])
  else
    let accounts := db.accounts.filter (fun a => a.incidentId == inc)
    let malware := db.malware.filter (fun m => m.incidentId == inc)
    let hostIndicators := db.hostIndicators.filter (fun hi => hi.incidentId == inc)
    let hnIdx := hostnameToId hosts
    let ipIdx := ipToHostId hosts
    let accG := group_by_host accounts (fun a => a.hostId) (fun a => a.hostSystem) hnIdx ipIdx
    let malG := group_by_host malware (fun m => m.hostId) (fun m => m.host) hnIdx ipIdx
    let indG := group_by_host hostIndicators (fun hi => hi.hostId) (fun hi => hi.host) hnIdx ipIdx
    let (s2, nodeMap, ns, es) := host_loop inc userId accG malG indG hosts 0 s1 []
    let (s3, netNs, netEs) :=
      net_loop inc userId nodeMap hnIdx ipIdx
        (db.networkIndicators.filter (fun io => io.incidentId == inc)) [] 100 100 s2
    let (s4, latEs) := lateral_loop inc userId nodeMap (eventsOfIncident db inc) none s3
    (s4, ns ++ netNs, es ++ netEs ++ latEs)    -- db.session.commit() : second transaction

/-- The store observable after the first commit inside `auto_generate`: the
source commits the incident-graph deletion in its own transaction before any
node is rebuilt, so a storage failure later in the run rolls back only the
build transaction and leaves this cleared state behind. -/
def auto_generate_after_clear_commit (inc : Nat) (s0 : GraphStore) : GraphStore :=
  clear_graph inc s0

/-! ## Incremental Updater (per-event mode) -/

/-- The node the incremental updater creates for a host at the origin. -/
def mkEventHostNode (incidentId hostId createdBy : Nat) (host : CompromisedHost)
    (nid : Nat) : AttackGraphNode :=
  { id := nid, incidentId := incidentId, nodeType := infer_node_type host,
    label := host.hostname, compromisedHostId := some hostId,
    positionX := 0, positionY := 0, createdBy := createdBy }

/-- `GraphAutomationService._get_or_create_node`: fetch the incident's node for
this host, else look the host up by primary key (`query.get`, no incident
filter) and create a node at the origin; returns `none` ( Python `None`) when
the host does not exist. -/
def get_or_create_node (db : Db) (incidentId hostId createdBy : Nat) (s : GraphStore) :
    GraphStore × Option AttackGraphNode :=
  match s.nodes.find? (fun n =>
      n.incidentId == incidentId && n.compromisedHostId == some hostId) with
  | some n => (s, some n)
  | none =>
    match db.hosts.find? (fun h => h.id == hostId) with
    | none => (s, none)
    | some host =>
      let n := mkEventHostNode incidentId hostId createdBy host s.nextId
      (push_node s n, some n)

/-- The source-host resolution inline in `process_event_for_graph`: exact
hostname match within the incident, then — when the text is numeric-dotted —
exact ip match. -/
def resolve_event_source (db : Db) (ev : TimelineEvent) : Option CompromisedHost :=
  match ev.source with
  | none => none
  | some src =>
    match db.hosts.find? (fun h => h.incidentId == ev.incidentId && h.hostname == src) with
    | some h => some h
    | none =>
      if pyIsDigit (removeDots src) then
        db.hosts.find? (fun h => h.incidentId == ev.incidentId && h.ipAddress == some src)
      else none

/-- Models `target_node.<flag> = True` guarded by a tactic test: when the guard
fires and the node reference is Python `None`, an `AttributeError` escapes. -/
def step_flag (s : GraphStore) (tnode : Option AttackGraphNode) (cond : Bool)
    (f : AttackGraphNode → AttackGraphNode) : Except String GraphStore :=
  if cond then
    match tnode with
    | none => .error "AttributeError"
    | some tn => .ok (update_node s tn.id f)
  else .ok s

/-- The lateral-movement edge created by the incremental updater. -/
def mkEventLateralEdge (ev : TimelineEvent) (sourceNode targetNode : AttackGraphNode) :
    AttackGraphEdge :=
  { incidentId := ev.incidentId,
    sourceNodeId := sourceNode.id, targetNodeId := targetNode.id,
    edgeType := "lateral_movement",
    label := some (match ev.mitreTechnique with
      | some t => if t ≠ "" then t else "Lateral Movement"
      | none => "Lateral Movement"),
    mitreTactic := some "lateral-movement",
    mitreTechnique := ev.mitreTechnique,
    timestamp := some ev.timestamp,
    description := some ev.activity,
    createdBy := ev.createdBy }

/-- `GraphAutomationService.process_event_for_graph`.  The function body has no
exception handler of its own; the `Except` layer carries the Python exceptions
its statements can raise (`AttributeError` on a `None` node reference).  On
error nothing is committed, so no store is produced. -/
def process_event_for_graph (db : Db) (ev : TimelineEvent) (s0 : GraphStore) :
    Except String GraphStore :=
  match ev.hostId with
  | none => .ok s0
  | some hostId =>
    let r := get_or_create_node db ev.incidentId hostId ev.createdBy s0
    let s1 := r.1
    let tnode := r.2
    match step_flag s1 tnode (ev.mitreTactic == some "initial-access")
        (fun n => { n with isInitialAccess := true }) with
    | .error msg => .error msg
    | .ok s2 =>
      match step_flag s2 tnode (ev.mitreTactic == some "impact")
          (fun n => { n with isObjective := true }) with
      | .error msg => .error msg
      | .ok s3 =>
        if ev.mitreTactic == some "lateral-movement" && strTruthy ev.source then
          match resolve_event_source db ev with
          | none => .ok s3
          | some sourceHost =>
            let r2 := get_or_create_node db ev.incidentId sourceHost.id ev.createdBy s3
            let s4 := r2.1
            match r2.2, tnode with
            | some sourceNode, some targetNode =>
              if edge_exists_incident s4 ev.incidentId sourceNode.id targetNode.id
                  "lateral_movement" then
                .ok s4
              else
                .ok (push_edge s4 (mkEventLateralEdge ev sourceNode targetNode))
            | _, _ => .error "AttributeError"
        else .ok s3

/-- The caller's guard in `create_timeline_event`
(`app/api/v1/endpoints/timeline.py`): the graph update runs inside
`try/except Exception`, so a graph-update failure is logged and the request
proceeds with the store unchanged. -/
def create_timeline_event_graph_update (db : Db) (ev : TimelineEvent) (s : GraphStore) :
    GraphStore :=
  match process_event_for_graph db ev s with
  | .ok s1 => s1
  | .error _ => s

/-! ## Concrete instances used by counterexamples and witnesses -/

/-- A compromised host of incident 7 ("alpha", a server first seen at 100). -/
def wHostA : CompromisedHost :=
  { id := 1, incidentId := 7, hostname := "alpha", ipAddress := some "10.0.0.1",
    systemType := some "server", firstSeen := some 100 }

/-- A second compromised host of incident 7 ("beta", first seen at 200). -/
def wHostB : CompromisedHost :=
  { id := 2, incidentId := 7, hostname := "beta", firstSeen := some 200 }

/-- A database holding only host "alpha" for incident 7. -/
def wDbA : Db := { hosts := [wHostA] }

/-- An event on host "alpha" naming its own hostname as lateral-movement
source. -/
def wEvSelf : TimelineEvent :=
  { id := 43, incidentId := 7, timestamp := 300, hostId := some 1, source := some "alpha",
    mitreTactic := some "lateral-movement", activity := "loop", createdBy := 5 }

/-- An event whose `host_id` points to no stored host, tagged initial-access. -/
def wEvMissingHost : TimelineEvent :=
  { id := 44, incidentId := 7, timestamp := 300, hostId := some 99,
    mitreTactic := some "initial-access", activity := "x", createdBy := 5 }

/-- An event with no host reference at all. -/
def wEvNoHost : TimelineEvent :=
  { id := 45, incidentId := 7, timestamp := 310, activity := "note", createdBy := 5 }

/-- A stale graph node of incident 7, left over from an earlier build. -/
def wStaleNode : AttackGraphNode :=
  { id := 0, incidentId := 7, nodeType := "workstation", label := "stale", createdBy := 5 }

/-- A store holding the stale incident-7 graph (one node), with id 0 already
issued. -/
def wStaleStore : GraphStore := { nodes := [wStaleNode], edges := [], nextId := 1 }

/-- The empty graph store. -/
def wEmptyStore : GraphStore := { nodes := [], edges := [], nextId := 0 }

/-- A network indicator participates in the graph iff its host resolves and
that host has a node in this run's `node_map`. -/
def netResolvable (nodeMap : List (Nat × AttackGraphNode)) (hnIdx ipIdx : List (String × Nat))
    (ioc : NetworkIndicator) : Bool :=
  match resolve_host_id ioc.hostId ioc.sourceHost hnIdx ipIdx with
  | some hid => (alookup nodeMap hid).isSome
  | none => false

/-- The `dns_ip` values of the participating indicators, in order. -/
def netVals (nodeMap : List (Nat × AttackGraphNode)) (hnIdx ipIdx : List (String × Nat))
    (iocs : List NetworkIndicator) : List String :=
  (iocs.filter (netResolvable nodeMap hnIdx ipIdx)).map (fun io => io.dnsIp)

/-- Every node id issued so far is below the allocator. -/
abbrev NodesBounded (s : GraphStore) : Prop := ∀ n ∈ s.nodes, n.id < s.nextId

/-- Every edge endpoint references an already-issued id. -/
abbrev EdgesBounded (s : GraphStore) : Prop :=
  ∀ e ∈ s.edges, e.sourceNodeId < s.nextId ∧ e.targetNodeId < s.nextId

/-- Node ids are pairwise distinct (primary keys). -/
abbrev NodeIdsNodup (s : GraphStore) : Prop := (s.nodes.map (fun n => n.id)).Nodup

/-- Well-formedness of a store, as the relational store guarantees it. -/
abbrev WF (s : GraphStore) : Prop := NodesBounded s ∧ EdgesBounded s ∧ NodeIdsNodup s

/-- No two edges of the list share a `(sourceNodeId, targetNodeId, edgeType)`
triple. -/
abbrev TriplesDistinct (l : List AttackGraphEdge) : Prop :=
  l.Pairwise (fun a b => ¬(a.sourceNodeId = b.sourceNodeId ∧ a.targetNodeId = b.targetNodeId ∧
    a.edgeType = b.edgeType))

/-- An entity reference resolves to one of the incident's hosts. -/
def resolvesToIncidentHost (hostIds : List Nat) (hnIdx ipIdx : List (String × Nat))
    (fk : Option Nat) (text : Option String) : Bool :=
  match resolve_host_id fk text hnIdx ipIdx with
  | some hid => hostIds.contains hid
  | none => false

/-- A network indicator participates in the graph, stated against the
incident's host-id list. -/
def iocParticipates (hostIds : List Nat) (hnIdx ipIdx : List (String × Nat))
    (ioc : NetworkIndicator) : Bool :=
  resolvesToIncidentHost hostIds hnIdx ipIdx ioc.hostId ioc.sourceHost

/-- Modelled from the spec: the §8 node-count formula — hosts, plus accounts,
malware and host-indicators that resolve to some host of the incident, plus
the number of unique `dnsOrIp` values among resolvable network indicators. -/
def specNodeCountFormula (db : Db) (inc : Nat) : Nat :=
  (hostsOfIncident db inc).length
  + (db.accounts.filter (fun a => a.incidentId == inc)).countP
      (fun a => resolvesToIncidentHost ((hostsOfIncident db inc).map (fun h => h.id))
        (hostnameToId (hostsOfIncident db inc)) (ipToHostId (hostsOfIncident db inc))
        a.hostId a.hostSystem)
  + (db.malware.filter (fun m => m.incidentId == inc)).countP
      (fun m => resolvesToIncidentHost ((hostsOfIncident db inc).map (fun h => h.id))
        (hostnameToId (hostsOfIncident db inc)) (ipToHostId (hostsOfIncident db inc))
        m.hostId m.host)
  + (db.hostIndicators.filter (fun hi => hi.incidentId == inc)).countP
      (fun hi => resolvesToIncidentHost ((hostsOfIncident db inc).map (fun h => h.id))
        (hostnameToId (hostsOfIncident db inc)) (ipToHostId (hostsOfIncident db inc))
        hi.hostId hi.host)
  + (((db.networkIndicators.filter (fun io => io.incidentId == inc)).filter
      (iocParticipates ((hostsOfIncident db inc).map (fun h => h.id))
        (hostnameToId (hostsOfIncident db inc)) (ipToHostId (hostsOfIncident db inc)))).map
      (fun io => io.dnsIp)).toFinset.card

/-- Shift a node's id by `d`. -/
def nshift (d : Nat) (n : AttackGraphNode) : AttackGraphNode := { n with id := n.id + d }

/-- Shift an edge's endpoints by `d`. -/
def eshift (d : Nat) (e : AttackGraphEdge) : AttackGraphEdge :=
  { e with sourceNodeId := e.sourceNodeId + d, targetNodeId := e.targetNodeId + d }

/-- Two mid-build stores related by an id offset `d`: same foreign edges (all
endpoints below the cutoff `c`), and the edges of this run shifted by `d`. -/
def StoreRel (c d : Nat) (s1 s2 : GraphStore) : Prop :=
  s2.nextId = s1.nextId + d ∧ c ≤ s1.nextId ∧
  ∃ E F, s1.edges = E ++ F ∧ s2.edges = E ++ F.map (eshift d) ∧
    (∀ e ∈ E, e.sourceNodeId < c ∧ e.targetNodeId < c) ∧
    (∀ e ∈ F, c ≤ e.sourceNodeId ∧ c ≤ e.targetNodeId)

/-- Two node maps related by the id offset. -/
def MapRel (c d : Nat) (m1 m2 : List (α × AttackGraphNode)) : Prop :=
  m2 = m1.map (fun q => (q.1, nshift d q.2)) ∧ ∀ q ∈ m1, c ≤ q.2.id

/-- A database holding hosts "alpha" (id 1) and "beta" (id 2) of incident 7. -/
def wDbAB : Db := { hosts := [wHostA, wHostB] }

/-- A lateral-movement event on host 1 naming host "beta" as its source. -/
def wEvLat : TimelineEvent :=
  { id := 46, incidentId := 7, timestamp := 400, hostId := some 1, source := some "beta",
    mitreTactic := some "lateral-movement", mitreTechnique := some "T1021",
    activity := "rdp", createdBy := 5 }

/-- The node `get_or_create_node` creates for host "alpha" on the empty store. -/
def wC3tn : AttackGraphNode :=
  { id := 0, incidentId := 7, nodeType := "server", label := "alpha",
    compromisedHostId := some 1, createdBy := 5 }

/-- The node `get_or_create_node` then creates for host "beta". -/
def wC3sn : AttackGraphNode :=
  { id := 1, incidentId := 7, nodeType := "workstation", label := "beta",
    compromisedHostId := some 2, createdBy := 5 }

/-- Store after the target-node get-or-create. -/
def wC3s1 : GraphStore := { nodes := [wC3tn], edges := [], nextId := 1 }

/-- Store after the source-node get-or-create. -/
def wC3s4 : GraphStore := { nodes := [wC3tn, wC3sn], edges := [], nextId := 2 }

/-- A node belonging to a different incident (8). -/
def wOtherNode : AttackGraphNode :=
  { id := 50, incidentId := 8, nodeType := "server", label := "other", createdBy := 9 }

/-- An edge belonging to a different incident (8). -/
def wOtherEdge : AttackGraphEdge :=
  { incidentId := 8, sourceNodeId := 50, targetNodeId := 50, edgeType := "associated_with",
    createdBy := 9 }

/-- A store holding incident-8 data, on which incident-7 operations run. -/
def wMixedStore : GraphStore := { nodes := [wOtherNode], edges := [wOtherEdge], nextId := 51 }

/-- The store `process_event_for_graph` produces for `wEvLat` on `wMixedStore`. -/
def wC10s1 : GraphStore :=
  { nodes := [wOtherNode,
      { id := 51, incidentId := 7, nodeType := "server", label := "alpha",
        compromisedHostId := some 1, createdBy := 5 },
      { id := 52, incidentId := 7, nodeType := "workstation", label := "beta",
        compromisedHostId := some 2, createdBy := 5 }],
    edges := [wOtherEdge,
      { incidentId := 7, sourceNodeId := 52, targetNodeId := 51,
        edgeType := "lateral_movement", label := some "T1021",
        mitreTactic := some "lateral-movement", mitreTechnique := some "T1021",
        timestamp := some 400, description := some "rdp", createdBy := 5 }],
    nextId := 53 }

/-- Witness inputs for C5 — a database exercising every entity category for
incident 7: an account resolving by text (`" ALPHA "`): -/
def wAcct : CompromisedAccount :=
  { id := 11, incidentId := 7, hostSystem := some " ALPHA ", accountName := "bob",
    domain := some "CORP" }

/-- A malware sample on host "beta" (by FK). -/
def wMal : MalwareTool := { id := 21, incidentId := 7, hostId := some 2, fileName := "evil.exe" }

/-- A host-based indicator on host "alpha" (by FK). -/
def wInd : HostBasedIndicator :=
  { id := 26, incidentId := 7, hostId := some 1, artifactType := "file",
    artifactValue := "c:/tmp/x" }

/-- Two resolvable network indicators sharing one value, one unresolvable. -/
def wIoc1 : NetworkIndicator := { id := 31, incidentId := 7, hostId := some 1, dnsIp := "9.9.9.9" }

def wIoc2 : NetworkIndicator := { id := 32, incidentId := 7, hostId := some 2, dnsIp := "9.9.9.9" }

def wIoc3 : NetworkIndicator :=
  { id := 33, incidentId := 7, sourceHost := some "nohost", dnsIp := "8.8.8.8" }

def wDbC5 : Db :=
  { hosts := [wHostB, wHostA], accounts := [wAcct], malware := [wMal],
    hostIndicators := [wInd], networkIndicators := [wIoc1, wIoc2, wIoc3] }


/-! ## Helper lemmas -/

theorem alookup_cons [BEq α] (k' : α) (v : β) (rest : List (α × β)) (k : α) :
    alookup ((k', v) :: rest) k = if k' == k then some v else alookup rest k := by
  simp only [alookup, List.find?]
  cases h : k' == k <;> simp [h]

theorem groupGet_cons (k' : Nat) (xs : List α) (rest : List (Nat × List α)) (k : Nat) :
    groupGet ((k', xs) :: rest) k = if k' == k then xs else groupGet rest k := by
  simp only [groupGet, alookup_cons]
  cases h : k' == k <;> simp

theorem groupGet_addToGroup (g : List (Nat × List α)) (hid : Nat) (x : α) (k : Nat) :
    groupGet (addToGroup g hid x) k =
      if k = hid then groupGet g k ++ [x] else groupGet g k := by
  induction g with
  | nil =>
    simp only [addToGroup]
    rw [groupGet_cons]
    by_cases hk : k = hid
    · subst hk; simp [groupGet, alookup]
    · simp [hk, Ne.symm hk, groupGet, alookup]
  | cons p rest ih =>
    obtain ⟨k', xs⟩ := p
    simp only [addToGroup]
    by_cases hkh : k' = hid
    · subst hkh
      simp only [beq_self_eq_true, if_true]
      rw [groupGet_cons, groupGet_cons]
      by_cases hk : k = k'
      · subst hk; simp
      · simp [Ne.symm hk, hk]
    · have hb : (k' == hid) = false := by simp [hkh]
      simp only [hb, Bool.false_eq_true, if_false]
      rw [groupGet_cons, groupGet_cons]
      by_cases hk : k' = k
      · subst hk
        simp [hkh]
      · simp only [beq_iff_eq, hk, if_false]
        exact ih

theorem groupGet_foldl (items : List α) (fkOf : α → Option Nat) (textOf : α → Option String)
    (hnIdx ipIdx : List (String × Nat)) (g : List (Nat × List α)) (k : Nat) :
    groupGet (items.foldl (fun g it =>
      match resolve_host_id (fkOf it) (textOf it) hnIdx ipIdx with
      | some hid => addToGroup g hid it
      | none => g) g) k =
    groupGet g k ++
      items.filter (fun it => resolve_host_id (fkOf it) (textOf it) hnIdx ipIdx == some k) := by
  induction items generalizing g with
  | nil => simp
  | cons it rest ih =>
    simp only [List.foldl_cons, List.filter_cons]
    cases hres : resolve_host_id (fkOf it) (textOf it) hnIdx ipIdx with
    | none => simp [hres, ih]
    | some hid =>
      by_cases hk : hid = k
      · subst hk
        simp [hres, ih, groupGet_addToGroup]
      · have : ((some hid == some k) : Bool) = false := by simp [hk]
        simp [hres, this, ih, groupGet_addToGroup, Ne.symm hk]

theorem groupGet_group_by_host (items : List α) (fkOf : α → Option Nat)
    (textOf : α → Option String) (hnIdx ipIdx : List (String × Nat)) (k : Nat) :
    groupGet (group_by_host items fkOf textOf hnIdx ipIdx) k =
      items.filter (fun it => resolve_host_id (fkOf it) (textOf it) hnIdx ipIdx == some k) := by
  have h := groupGet_foldl items fkOf textOf hnIdx ipIdx [] k
  simpa [group_by_host, groupGet, alookup] using h

theorem push_node_nodes (s : GraphStore) (n : AttackGraphNode) :
    (push_node s n).nodes = s.nodes ++ [n] := rfl

theorem push_node_edges (s : GraphStore) (n : AttackGraphNode) :
    (push_node s n).edges = s.edges := rfl

theorem push_node_nextId (s : GraphStore) (n : AttackGraphNode) :
    (push_node s n).nextId = s.nextId + 1 := rfl

theorem push_edge_nodes (s : GraphStore) (e : AttackGraphEdge) :
    (push_edge s e).nodes = s.nodes := rfl

theorem push_edge_edges (s : GraphStore) (e : AttackGraphEdge) :
    (push_edge s e).edges = s.edges ++ [e] := rfl

theorem push_edge_nextId (s : GraphStore) (e : AttackGraphEdge) :
    (push_edge s e).nextId = s.nextId := rfl

theorem sub_loop_spec (inc u : Nat) (hn : AttackGraphNode) :
    ∀ (pending : List AttackGraphNode) (s s' : GraphStore) (ns : List AttackGraphNode)
      (es : List AttackGraphEdge), sub_loop inc u hn pending s = (s', ns, es) →
      s'.nodes = s.nodes ++ ns ∧
      s'.edges = s.edges ++ es ∧
      s'.nextId = s.nextId + ns.length ∧
      ns.length = pending.length ∧
      es.length = pending.length ∧
      (∀ n ∈ ns, s.nextId ≤ n.id ∧ n.id < s'.nextId) ∧
      (∀ e ∈ es, e.incidentId = inc ∧ e.sourceNodeId = hn.id ∧ s.nextId ≤ e.targetNodeId ∧
        e.targetNodeId < s'.nextId ∧ e.edgeType = "associated_with") ∧
      ((∀ p ∈ pending, p.incidentId = inc ∧ p.compromisedHostId = none) →
        ∀ n ∈ ns, n.incidentId = inc ∧ n.compromisedHostId = none) := by
  intro pending
  induction pending with
  | nil =>
    intro s s' ns es h
    simp only [sub_loop] at h
    injection h with h1 h2
    injection h2 with h2 h3
    subst h1; subst h2; subst h3
    simp
  | cons p rest ih =>
    intro s s' ns es h
    rcases hrec : sub_loop inc u hn rest
        (push_edge (push_node s (place_sub hn p s.nextId))
          (mkSubEdge inc u hn (place_sub hn p s.nextId))) with ⟨s3, ns3, es3⟩
    simp only [sub_loop, hrec] at h
    injection h with h1 h2
    injection h2 with h2 h3
    subst h1; subst h2; subst h3
    obtain ⟨e1, e2, e3, e4, e5, e6, e7, e8⟩ := ih _ s3 ns3 es3 hrec
    simp only [push_edge_nodes, push_edge_edges, push_edge_nextId,
      push_node_nodes, push_node_edges, push_node_nextId] at e1 e2 e3 e6 e7
    refine ⟨by simp [e1], by simp [e2], by simp; omega, by simp [e4], by simp [e5],
      ?_, ?_, ?_⟩
    · intro n hmem
      rcases List.mem_cons.mp hmem with rfl | hmem
      · simp only [place_sub]
        omega
      · have hb := e6 n hmem
        omega
    · intro e he
      rcases List.mem_cons.mp he with rfl | hmem
      · refine ⟨rfl, rfl, ?_, ?_, rfl⟩
        · simp [mkSubEdge, place_sub]
        · simp [mkSubEdge, place_sub]; omega
      · have hb := e7 e hmem
        exact ⟨hb.1, hb.2.1, by omega, hb.2.2.2.1, hb.2.2.2.2⟩
    · intro hp n hmem
      rcases List.mem_cons.mp hmem with rfl | hmem
      · have := hp p (List.mem_cons_self p rest)
        exact ⟨this.1, this.2⟩
      · exact e8 (fun q hq => hp q (List.mem_cons_of_mem p hq)) n hmem

theorem create_host_node_id (inc : Nat) (h : CompromisedHost) (i u nid : Nat) :
    (create_host_node inc h i u nid).id = nid := rfl

theorem create_host_node_incidentId (inc : Nat) (h : CompromisedHost) (i u nid : Nat) :
    (create_host_node inc h i u nid).incidentId = inc := rfl

theorem create_host_node_hostId (inc : Nat) (h : CompromisedHost) (i u nid : Nat) :
    (create_host_node inc h i u nid).compromisedHostId = some h.id := rfl

theorem sub_elements_mem (inc : Nat) (h : CompromisedHost) (u : Nat)
    (accG : List (Nat × List CompromisedAccount)) (malG : List (Nat × List MalwareTool))
    (indG : List (Nat × List HostBasedIndicator)) :
    ∀ p ∈ sub_elements inc h u accG malG indG,
      p.incidentId = inc ∧ p.compromisedHostId = none := by
  intro p hp
  simp only [sub_elements, List.mem_append, List.mem_map] at hp
  rcases hp with (⟨a, _, rfl⟩ | ⟨a, _, rfl⟩) | ⟨a, _, rfl⟩ <;>
    simp [mkAccountNode, mkMalwareNode, mkIndicatorNode]

theorem host_loop_spec (inc u : Nat) (accG : List (Nat × List CompromisedAccount))
    (malG : List (Nat × List MalwareTool)) (indG : List (Nat × List HostBasedIndicator)) :
    ∀ (hosts : List CompromisedHost) (i : Nat) (s s' : GraphStore)
      (m m' : List (Nat × AttackGraphNode)) (ns : List AttackGraphNode)
      (es : List AttackGraphEdge),
      host_loop inc u accG malG indG hosts i s m = (s', m', ns, es) →
      s'.nodes = s.nodes ++ ns ∧
      s'.edges = s.edges ++ es ∧
      s'.nextId = s.nextId + ns.length ∧
      (∀ n ∈ ns, s.nextId ≤ n.id ∧ n.id < s'.nextId ∧ n.incidentId = inc) ∧
      (∀ e ∈ es, e.incidentId = inc ∧ s.nextId ≤ e.sourceNodeId ∧ e.sourceNodeId < s'.nextId ∧
        s.nextId ≤ e.targetNodeId ∧ e.targetNodeId < s'.nextId ∧
        e.edgeType = "associated_with") ∧
      (∀ q ∈ m', q ∈ m ∨ (s.nextId ≤ q.2.id ∧ q.2.id < s'.nextId)) ∧
      ns.length = (hosts.map (fun h => 1 + (sub_elements inc h u accG malG indG).length)).sum ∧
      (∀ hid : Nat, ns.countP (fun n => n.compromisedHostId == some hid) =
        hosts.countP (fun h => h.id == hid)) ∧
      (∀ hid : Nat, (alookup m' hid).isSome ↔
        (hid ∈ hosts.map (fun h => h.id) ∨ (alookup m hid).isSome)) := by
  intro hosts
  induction hosts with
  | nil =>
    intro i s s' m m' ns es hh
    simp only [host_loop] at hh
    injection hh with h1 h2
    injection h2 with h2 h3
    injection h3 with h3 h4
    subst h1; subst h2; subst h3; subst h4
    refine ⟨by simp, by simp, by simp, by simp, by simp, fun q hq => Or.inl hq,
      by simp, by simp, by simp⟩
  | cons h rest ih =>
    intro i s s' m m' ns es hh
    rcases hsub : sub_loop inc u (create_host_node inc h i u s.nextId)
        (sub_elements inc h u accG malG indG)
        (push_node s (create_host_node inc h i u s.nextId)) with ⟨s2, sns, ses⟩
    rcases hrec : host_loop inc u accG malG indG rest (i + 1) s2
        ((h.id, create_host_node inc h i u s.nextId) :: m) with ⟨s3, m2, ns3, es3⟩
    simp only [host_loop, hsub, hrec] at hh
    injection hh with h1 h2
    injection h2 with h2 h3
    injection h3 with h3 h4
    subst h1; subst h2; subst h3; subst h4
    obtain ⟨a1, a2, a3, a4, a5, a6, a7, a8⟩ :=
      sub_loop_spec inc u (create_host_node inc h i u s.nextId) _ _ _ _ _ hsub
    obtain ⟨b1, b2, b3, b4, b5, b6, b7, b8, b9⟩ := ih (i + 1) s2 s3 _ m2 ns3 es3 hrec
    simp only [push_node_nodes, push_node_edges, push_node_nextId] at a1 a2 a3 a6 a7
    have hsubs := a8 (sub_elements_mem inc h u accG malG indG)
    refine ⟨?_, ?_, ?_, ?_, ?_, ?_, ?_, ?_, ?_⟩
    · rw [b1, a1]; simp
    · rw [b2, a2]; simp
    · rw [b3, a3]; simp; omega
    · intro n hmem
      simp only [List.cons_append, List.mem_cons, List.mem_append] at hmem
      rcases hmem with rfl | hmem | hmem
      · refine ⟨le_refl _, ?_, rfl⟩
        rw [create_host_node_id]; omega
      · obtain ⟨hb1, hb2⟩ := a6 n hmem
        obtain ⟨hc1, hc2⟩ := hsubs n hmem
        exact ⟨by omega, by omega, hc1⟩
      · obtain ⟨hb1, hb2, hb3⟩ := b4 n hmem
        exact ⟨by omega, by omega, hb3⟩
    · intro e hmem
      simp only [List.mem_append] at hmem
      rcases hmem with hmem | hmem
      · obtain ⟨hc1, hc2, hc3, hc4, hc5⟩ := a7 e hmem
        rw [create_host_node_id] at hc2
        refine ⟨hc1, by omega, by omega, by omega, by omega, hc5⟩
      · obtain ⟨hc1, hc2, hc3, hc4, hc5, hc6⟩ := b5 e hmem
        exact ⟨hc1, by omega, by omega, by omega, by omega, hc6⟩
    · intro q hq
      rcases b6 q hq with hq1 | hq1
      · rcases List.mem_cons.mp hq1 with rfl | hq2
        · right
          constructor
          · simp [create_host_node_id]
          · simp only [create_host_node_id]; omega
        · exact Or.inl hq2
      · right; omega
    · simp only [List.map_cons, List.sum_cons, List.length_cons, List.length_append]
      omega
    · intro hid
      simp only [List.cons_append, List.countP_cons, List.countP_append]
      rw [b8 hid]
      have hz : sns.countP (fun n => n.compromisedHostId == some hid) = 0 := by
        rw [List.countP_eq_zero]
        intro n hnmem
        have := (hsubs n hnmem).2
        simp [this]
      rw [hz]
      have : ((create_host_node inc h i u s.nextId).compromisedHostId == some hid) =
          (h.id == hid) := by
        rw [create_host_node_hostId]
        cases hbe : (h.id == hid : Bool) <;> simp at hbe <;> simp [hbe]
      rw [this]
      cases hbe : (h.id == hid : Bool) <;> simp [hbe]
    · intro hid
      rw [b9 hid]
      simp only [alookup_cons, List.map_cons, List.mem_cons]
      cases hbe : (h.id == hid : Bool)
      · have hne : ¬ h.id = hid := by simpa using hbe
        simp only [hbe, Bool.false_eq_true, if_false]
        constructor
        · rintro (hx | hx)
          · exact Or.inl (Or.inr hx)
          · exact Or.inr hx
        · rintro ((hx | hx) | hx)
          · exact absurd hx.symm hne
          · exact Or.inl hx
          · exact Or.inr hx
      · have heq : h.id = hid := by simpa using hbe
        simp [heq]

theorem alookup_isSome_iff_mem_keys [BEq α] [LawfulBEq α] (m : List (α × β)) (k : α) :
    (alookup m k).isSome ↔ k ∈ m.map (fun p => p.1) := by
  induction m with
  | nil => simp [alookup]
  | cons p rest ih =>
    obtain ⟨k', v⟩ := p
    rw [alookup_cons]
    cases hbe : (k' == k : Bool)
    · have hne : ¬ k' = k := by simpa using hbe
      simp only [hbe, Bool.false_eq_true, if_false, List.map_cons, List.mem_cons]
      rw [ih]
      constructor
      · exact fun hx => Or.inr hx
      · rintro (hx | hx)
        · exact absurd hx.symm hne
        · exact hx
    · have heq : k' = k := by simpa using hbe
      simp [hbe, heq]

theorem net_loop_spec (inc u : Nat) (nodeMap : List (Nat × AttackGraphNode))
    (hnIdx ipIdx : List (String × Nat)) :
    ∀ (iocs : List NetworkIndicator) (ipMap : List (String × AttackGraphNode)) (x y : Int)
      (s s' : GraphStore) (ns : List AttackGraphNode) (es : List AttackGraphEdge),
      net_loop inc u nodeMap hnIdx ipIdx iocs ipMap x y s = (s', ns, es) →
      s'.nodes = s.nodes ++ ns ∧
      s'.edges = s.edges ++ es ∧
      s'.nextId = s.nextId + ns.length ∧
      (∀ n ∈ ns, s.nextId ≤ n.id ∧ n.id < s'.nextId ∧ n.incidentId = inc) ∧
      (∀ e ∈ es, e.incidentId = inc ∧ e.edgeType = "associated_with") ∧
      ns.length = ((netVals nodeMap hnIdx ipIdx iocs).toFinset \
        (ipMap.map (fun p => p.1)).toFinset).card ∧
      (∀ n ∈ ns, n.compromisedHostId = none) := by
  intro iocs
  induction iocs with
  | nil =>
    intro ipMap x y s s' ns es h
    simp only [net_loop] at h
    injection h with h1 h2
    injection h2 with h2 h3
    subst h1; subst h2; subst h3
    simp [netVals]
  | cons ioc rest ih =>
    intro ipMap x y s s' ns es h
    cases hres : resolve_host_id ioc.hostId ioc.sourceHost hnIdx ipIdx with
    | none =>
      simp only [net_loop, hres] at h
      have hnr : netResolvable nodeMap hnIdx ipIdx ioc = false := by
        simp [netResolvable, hres]
      obtain ⟨c1, c2, c3, c4, c5, c6, c7⟩ := ih ipMap x y s s' ns es h
      exact ⟨c1, c2, c3, c4, c5, by simpa [netVals, hnr] using c6, c7⟩
    | some hid =>
      cases hmap : alookup nodeMap hid with
      | none =>
        simp only [net_loop, hres, hmap] at h
        have hnr : netResolvable nodeMap hnIdx ipIdx ioc = false := by
          simp [netResolvable, hres, hmap]
        obtain ⟨c1, c2, c3, c4, c5, c6, c7⟩ := ih ipMap x y s s' ns es h
        exact ⟨c1, c2, c3, c4, c5, by simpa [netVals, hnr] using c6, c7⟩
      | some hostNode =>
        have hnr : netResolvable nodeMap hnIdx ipIdx ioc = true := by
          simp [netResolvable, hres, hmap]
        cases hip : alookup ipMap ioc.dnsIp with
        | some existingNode =>
          have hkey : ioc.dnsIp ∈ (ipMap.map (fun p => p.1)).toFinset := by
            rw [List.mem_toFinset, ← alookup_isSome_iff_mem_keys]
            simp [hip]
          have hkeyL : ioc.dnsIp ∈ ipMap.map (fun p => p.1) := by
            simpa [List.mem_toFinset] using hkey
          have hvals : (netVals nodeMap hnIdx ipIdx (ioc :: rest)).toFinset \
              (ipMap.map (fun p => p.1)).toFinset =
              (netVals nodeMap hnIdx ipIdx rest).toFinset \
              (ipMap.map (fun p => p.1)).toFinset := by
            simp only [netVals, List.filter_cons, hnr, if_true, List.map_cons,
              List.toFinset_cons]
            ext v
            simp only [Finset.mem_sdiff, Finset.mem_insert, List.mem_toFinset]
            by_cases hv : v = ioc.dnsIp
            · subst hv; tauto
            · tauto
          by_cases hex : edge_exists s hostNode.id existingNode.id "associated_with"
          · simp only [net_loop, hres, hmap, hip, hex, if_true] at h
            obtain ⟨c1, c2, c3, c4, c5, c6, c7⟩ := ih ipMap x y s s' ns es h
            exact ⟨c1, c2, c3, c4, c5, by rw [hvals]; exact c6, c7⟩
          · rcases hrec : net_loop inc u nodeMap hnIdx ipIdx rest ipMap x y
                (push_edge s (mkIocEdge inc hostNode existingNode ioc u)) with ⟨s3, ns3, es3⟩
            simp only [net_loop, hres, hmap, hip, hex, if_false, hrec] at h
            injection h with h1 h2
            injection h2 with h2 h3
            subst h1; subst h2; subst h3
            obtain ⟨c1, c2, c3, c4, c5, c6, c7⟩ := ih ipMap x y _ s3 ns3 es3 hrec
            simp only [push_edge_nodes, push_edge_edges, push_edge_nextId] at c1 c2 c3 c4
            refine ⟨c1, by rw [c2]; simp, c3, c4, ?_, by rw [hvals]; exact c6, c7⟩
            intro e he
            rcases List.mem_cons.mp he with rfl | hmem
            · exact ⟨rfl, rfl⟩
            · exact c5 e hmem
        | none =>
          have hkey : ioc.dnsIp ∉ (ipMap.map (fun p => p.1)).toFinset := by
            rw [List.mem_toFinset, ← alookup_isSome_iff_mem_keys]
            simp [hip]
          have hkeyL : ioc.dnsIp ∉ ipMap.map (fun p => p.1) := by
            simpa [List.mem_toFinset] using hkey
          rcases hrec : net_loop inc u nodeMap hnIdx ipIdx rest
              ((ioc.dnsIp, mkNetIocNode inc u ioc x y s.nextId) :: ipMap)
              (if x + 150 > 1200 then 100 else x + 150)
              (if x + 150 > 1200 then y + 120 else y)
              (push_edge (push_node s (mkNetIocNode inc u ioc x y s.nextId))
                (mkIocEdge inc hostNode (mkNetIocNode inc u ioc x y s.nextId) ioc u))
            with ⟨s3, ns3, es3⟩
          simp only [net_loop, hres, hmap, hip, hrec] at h
          injection h with h1 h2
          injection h2 with h2 h3
          subst h1; subst h2; subst h3
          obtain ⟨c1, c2, c3, c4, c5, c6, c7⟩ := ih _ _ _ _ s3 ns3 es3 hrec
          simp only [push_edge_nodes, push_edge_edges, push_edge_nextId,
            push_node_nodes, push_node_edges, push_node_nextId] at c1 c2 c3 c4
          have hvals : (netVals nodeMap hnIdx ipIdx (ioc :: rest)).toFinset \
              (ipMap.map (fun p => p.1)).toFinset =
              insert ioc.dnsIp ((netVals nodeMap hnIdx ipIdx rest).toFinset \
                ((ioc.dnsIp :: ipMap.map (fun p => p.1)).toFinset)) := by
            simp only [netVals, List.filter_cons, hnr, if_true, List.map_cons,
              List.toFinset_cons]
            ext v
            simp only [Finset.mem_sdiff, Finset.mem_insert, List.mem_toFinset, List.mem_cons]
            by_cases hv : v = ioc.dnsIp
            · subst hv; tauto
            · tauto
          refine ⟨by rw [c1]; simp, by rw [c2]; simp, by rw [c3]; simp; omega, ?_, ?_, ?_, ?_⟩
          · intro n hmem
            rcases List.mem_cons.mp hmem with rfl | hmem
            · exact ⟨le_refl _, by simp only [mkNetIocNode]; omega, rfl⟩
            · obtain ⟨d1, d2, d3⟩ := c4 n hmem
              exact ⟨by omega, d2, d3⟩
          · intro e he
            rcases List.mem_cons.mp he with rfl | hmem
            · exact ⟨rfl, rfl⟩
            · exact c5 e hmem
          · rw [hvals, Finset.card_insert_of_not_mem (by simp)]
            simp only [List.length_cons, c6, List.map_cons]
          · intro n hmem
            rcases List.mem_cons.mp hmem with rfl | hmem
            · rfl
            · exact c7 n hmem

theorem lateral_step_some (inc u : Nat) (nodeMap : List (Nat × AttackGraphNode))
    (ev : TimelineEvent) (prev : Option Nat) (cur : Nat) (s : GraphStore)
    (e : AttackGraphEdge) (h : lateral_step inc u nodeMap ev prev cur s = some e) :
    ∃ p src tgt, prev = some p ∧ p ≠ cur ∧ alookup nodeMap p = some src ∧
      alookup nodeMap cur = some tgt ∧
      edge_exists s src.id tgt.id "lateral_movement" = false ∧
      e = mkBulkLateralEdge inc u src tgt ev := by
  cases prev with
  | none => simp [lateral_step] at h
  | some p =>
    simp only [lateral_step] at h
    by_cases hpc : p ≠ cur
    · rw [if_pos hpc] at h
      cases hsrc : alookup nodeMap p with
      | none => simp [hsrc] at h
      | some src =>
        cases htgt : alookup nodeMap cur with
        | none => simp [hsrc, htgt] at h
        | some tgt =>
          simp only [hsrc, htgt] at h
          by_cases hex : edge_exists s src.id tgt.id "lateral_movement"
          · rw [if_pos hex] at h; exact absurd h (by simp)
          · rw [if_neg hex] at h
            injection h with h
            exact ⟨p, src, tgt, rfl, hpc, hsrc, rfl, by simpa using hex, h.symm⟩
    · rw [if_neg hpc] at h
      exact absurd h (by simp)

theorem lateral_loop_spec (inc u : Nat) (nodeMap : List (Nat × AttackGraphNode)) :
    ∀ (events : List TimelineEvent) (prev : Option Nat) (s s' : GraphStore)
      (es : List AttackGraphEdge), lateral_loop inc u nodeMap events prev s = (s', es) →
      s'.nodes = s.nodes ∧
      s'.edges = s.edges ++ es ∧
      s'.nextId = s.nextId ∧
      (∀ e ∈ es, e.incidentId = inc ∧ e.edgeType = "lateral_movement") := by
  intro events
  induction events with
  | nil =>
    intro prev s s' es h
    simp only [lateral_loop] at h
    injection h with h1 h2
    subst h1; subst h2
    simp
  | cons ev rest ih =>
    intro prev s s' es h
    cases hh : ev.hostId with
    | none =>
      simp only [lateral_loop, hh] at h
      exact ih prev s s' es h
    | some cur =>
      cases hstep : lateral_step inc u nodeMap ev prev cur s with
      | none =>
        simp only [lateral_loop, hh, hstep] at h
        exact ih (some cur) s s' es h
      | some e =>
        rcases hrec : lateral_loop inc u nodeMap rest (some cur) (push_edge s e)
          with ⟨s2, es2⟩
        simp only [lateral_loop, hh, hstep, hrec] at h
        injection h with h1 h2
        subst h1; subst h2
        obtain ⟨c1, c2, c3, c4⟩ := ih (some cur) _ s2 es2 hrec
        obtain ⟨p, src, tgt, _, _, _, _, _, he⟩ :=
          lateral_step_some inc u nodeMap ev prev cur s e hstep
        refine ⟨by simpa using c1, by rw [c2]; simp [push_edge], by simpa using c3, ?_⟩
        intro e' he'
        rcases List.mem_cons.mp he' with rfl | hmem
        · subst he; exact ⟨rfl, rfl⟩
        · exact c4 e' hmem

theorem clear_graph_nodes (inc : Nat) (s : GraphStore) :
    (clear_graph inc s).nodes = s.nodes.filter (fun n => n.incidentId ≠ inc) := rfl

theorem clear_graph_edges (inc : Nat) (s : GraphStore) :
    (clear_graph inc s).edges = s.edges.filter (fun e => e.incidentId ≠ inc) := rfl

theorem clear_graph_nextId (inc : Nat) (s : GraphStore) :
    (clear_graph inc s).nextId = s.nextId := rfl

/-- Decomposition of a non-empty bulk run into its phases. -/
theorem auto_generate_cases (db : Db) (inc u : Nat) (s0 : GraphStore)
    (hne : (hostsOfIncident db inc).isEmpty = false) :
    ∃ (s2 : GraphStore) (nodeMap : List (Nat × AttackGraphNode))
      (ns : List AttackGraphNode) (es : List AttackGraphEdge) (s3 : GraphStore)
      (netNs : List AttackGraphNode) (netEs : List AttackGraphEdge) (s4 : GraphStore)
      (latEs : List AttackGraphEdge),
      host_loop inc u
          (group_by_host (db.accounts.filter (fun a => a.incidentId == inc))
            (fun a => a.hostId) (fun a => a.hostSystem)
            (hostnameToId (hostsOfIncident db inc)) (ipToHostId (hostsOfIncident db inc)))
          (group_by_host (db.malware.filter (fun m => m.incidentId == inc))
            (fun m => m.hostId) (fun m => m.host)
            (hostnameToId (hostsOfIncident db inc)) (ipToHostId (hostsOfIncident db inc)))
          (group_by_host (db.hostIndicators.filter (fun hi => hi.incidentId == inc))
            (fun hi => hi.hostId) (fun hi => hi.host)
            (hostnameToId (hostsOfIncident db inc)) (ipToHostId (hostsOfIncident db inc)))
          (hostsOfIncident db inc) 0 (clear_graph inc s0) [] = (s2, nodeMap, ns, es) ∧
      net_loop inc u nodeMap (hostnameToId (hostsOfIncident db inc))
          (ipToHostId (hostsOfIncident db inc))
          (db.networkIndicators.filter (fun io => io.incidentId == inc)) [] 100 100 s2
          = (s3, netNs, netEs) ∧
      lateral_loop inc u nodeMap (eventsOfIncident db inc) none s3 = (s4, latEs) ∧
      auto_generate db inc u s0 = (s4, ns ++ netNs, es ++ netEs ++ latEs) := by
  rcases hhl : host_loop inc u
      (group_by_host (db.accounts.filter (fun a => a.incidentId == inc))
        (fun a => a.hostId) (fun a => a.hostSystem)
        (hostnameToId (hostsOfIncident db inc)) (ipToHostId (hostsOfIncident db inc)))
      (group_by_host (db.malware.filter (fun m => m.incidentId == inc))
        (fun m => m.hostId) (fun m => m.host)
        (hostnameToId (hostsOfIncident db inc)) (ipToHostId (hostsOfIncident db inc)))
      (group_by_host (db.hostIndicators.filter (fun hi => hi.incidentId == inc))
        (fun hi => hi.hostId) (fun hi => hi.host)
        (hostnameToId (hostsOfIncident db inc)) (ipToHostId (hostsOfIncident db inc)))
      (hostsOfIncident db inc) 0 (clear_graph inc s0) [] with ⟨s2, nodeMap, ns, es⟩
  rcases hnl : net_loop inc u nodeMap (hostnameToId (hostsOfIncident db inc))
      (ipToHostId (hostsOfIncident db inc))
      (db.networkIndicators.filter (fun io => io.incidentId == inc)) [] 100 100 s2
    with ⟨s3, netNs, netEs⟩
  rcases hll : lateral_loop inc u nodeMap (eventsOfIncident db inc) none s3 with ⟨s4, latEs⟩
  refine ⟨s2, nodeMap, ns, es, s3, netNs, netEs, s4, latEs, rfl, hnl, hll, ?_⟩
  simp only [auto_generate, hne, Bool.false_eq_true, if_false, hhl, hnl, hll]

theorem step_flag_ok (s : GraphStore) (t : Option AttackGraphNode) (c : Bool)
    (f : AttackGraphNode → AttackGraphNode) (s2 : GraphStore)
    (h : step_flag s t c f = .ok s2) :
    s2 = s ∨ ∃ tn, t = some tn ∧ s2 = update_node s tn.id f := by
  cases c with
  | false =>
    simp only [step_flag, Bool.false_eq_true, if_false] at h
    injection h with h
    exact Or.inl h.symm
  | true =>
    simp only [step_flag, if_true] at h
    cases t with
    | none => exact absurd h (by simp)
    | some tn =>
      injection h with h
      exact Or.inr ⟨tn, rfl, h.symm⟩

theorem update_node_edges (s : GraphStore) (nid : Nat) (f : AttackGraphNode → AttackGraphNode) :
    (update_node s nid f).edges = s.edges := rfl

theorem update_node_nextId (s : GraphStore) (nid : Nat) (f : AttackGraphNode → AttackGraphNode) :
    (update_node s nid f).nextId = s.nextId := rfl

theorem filter_map_update (inc : Nat) (f : AttackGraphNode → AttackGraphNode)
    (hf : ∀ n, (f n).incidentId = n.incidentId) :
    ∀ (l : List AttackGraphNode) (nid : Nat),
      (∃ n' ∈ l, n'.id = nid ∧ n'.incidentId = inc) →
      (l.map (fun n => n.id)).Nodup →
      (l.map (fun n => if n.id == nid then f n else n)).filter
          (fun n => n.incidentId ≠ inc)
        = l.filter (fun n => n.incidentId ≠ inc) := by
  intro l
  induction l with
  | nil =>
    intro nid hex _
    obtain ⟨n', hmem, _⟩ := hex
    exact absurd hmem (List.not_mem_nil n')
  | cons a rest ih =>
    intro nid hex hnodup
    obtain ⟨n', hmem, hid, hinc⟩ := hex
    rw [List.map_cons] at hnodup
    have hnd1 : a.id ∉ rest.map (fun n => n.id) := (List.nodup_cons.mp hnodup).1
    have hnd2 : (rest.map (fun n => n.id)).Nodup := (List.nodup_cons.mp hnodup).2
    rcases List.mem_cons.mp hmem with heq | hmem'
    · subst heq
      have hbe : (n'.id == nid) = true := by simp [hid]
      have htail : rest.map (fun n => if n.id == nid then f n else n) = rest := by
        have hcong : ∀ x ∈ rest, (if x.id == nid then f x else x) = x := by
          intro x hx
          have hxne : ¬ x.id = nid := by
            intro hxe
            exact hnd1 (by rw [hid, ← hxe]; exact List.mem_map_of_mem _ hx)
          simp [hxne]
        calc rest.map (fun n => if n.id == nid then f n else n) = rest.map id :=
              List.map_congr_left hcong
          _ = rest := List.map_id rest
      simp only [List.map_cons, hbe, if_true, htail, List.filter_cons]
      have hfa : (decide ((f n').incidentId ≠ inc)) = false := by
        simp [hf n', hinc]
      have haa : (decide (n'.incidentId ≠ inc)) = false := by simp [hinc]
      simp [hfa, haa]
    · have hane : ¬ a.id = nid := by
        intro hae
        exact hnd1 (by rw [hae, ← hid]; exact List.mem_map_of_mem _ hmem')
      have hbe : (a.id == nid) = false := by simp [hane]
      simp only [List.map_cons, hbe, Bool.false_eq_true, if_false, List.filter_cons]
      rw [ih nid ⟨n', hmem', hid, hinc⟩ hnd2]

theorem update_node_wf (s : GraphStore) (nid : Nat) (f : AttackGraphNode → AttackGraphNode)
    (hf : ∀ n, (f n).id = n.id) (h : WF s) : WF (update_node s nid f) := by
  obtain ⟨h1, h2, h3⟩ := h
  refine ⟨?_, ?_, ?_⟩
  · intro n hn
    simp only [update_node, List.mem_map] at hn
    obtain ⟨m, hm, rfl⟩ := hn
    by_cases hbe : (m.id == nid : Bool) <;> simp only [hbe, if_true, if_false]
    · rw [hf m]; exact h1 m hm
    · simp only [Bool.false_eq_true, if_false]; exact h1 m hm
  · intro e he
    exact h2 e he
  · have : (update_node s nid f).nodes.map (fun n => n.id) = s.nodes.map (fun n => n.id) := by
      simp only [update_node, List.map_map]
      apply List.map_congr_left
      intro x _
      by_cases hbe : (x.id == nid : Bool)
      · simp only [Function.comp, hbe, if_true]; exact hf x
      · simp only [Function.comp, hbe, Bool.false_eq_true, if_false]
    rw [NodeIdsNodup, this]
    exact h3

theorem get_or_create_cases (db : Db) (inc hostId cb : Nat) (s s' : GraphStore)
    (r : Option AttackGraphNode) (h : get_or_create_node db inc hostId cb s = (s', r)) :
    (s' = s ∧ (r = none ∨ ∃ n, r = some n ∧ n ∈ s.nodes ∧ n.incidentId = inc))
    ∨ (∃ n, r = some n ∧ s' = push_node s n ∧ n.id = s.nextId ∧ n.incidentId = inc) := by
  unfold get_or_create_node at h
  cases hfind : s.nodes.find? (fun n =>
      n.incidentId == inc && n.compromisedHostId == some hostId) with
  | some n =>
    rw [hfind] at h
    injection h with h1 h2
    subst h1
    have hmem := List.mem_of_find?_eq_some hfind
    have hpred := List.find?_some hfind
    simp only [Bool.and_eq_true, beq_iff_eq] at hpred
    exact Or.inl ⟨rfl, Or.inr ⟨n, h2.symm, hmem, hpred.1⟩⟩
  | none =>
    rw [hfind] at h
    cases hhost : db.hosts.find? (fun hh => hh.id == hostId) with
    | none =>
      rw [hhost] at h
      injection h with h1 h2
      exact Or.inl ⟨h1.symm, Or.inl h2.symm⟩
    | some host =>
      rw [hhost] at h
      injection h with h1 h2
      exact Or.inr ⟨mkEventHostNode inc hostId cb host s.nextId, h2.symm, h1.symm, rfl, rfl⟩

theorem push_node_wf (s : GraphStore) (n : AttackGraphNode) (hid : n.id = s.nextId)
    (h : WF s) : WF (push_node s n) := by
  obtain ⟨h1, h2, h3⟩ := h
  refine ⟨?_, ?_, ?_⟩
  · intro m hm
    rw [push_node_nodes] at hm
    rw [push_node_nextId]
    rcases List.mem_append.mp hm with hm | hm
    · exact Nat.lt_succ_of_lt (h1 m hm)
    · rw [List.mem_singleton.mp hm, hid]; exact Nat.lt_succ_self _
  · intro e he
    rw [push_node_nextId]
    obtain ⟨he1, he2⟩ := h2 e he
    exact ⟨Nat.lt_succ_of_lt he1, Nat.lt_succ_of_lt he2⟩
  · rw [NodeIdsNodup, push_node_nodes, List.map_append]
    rw [List.nodup_append]
    refine ⟨h3, by simp, ?_⟩
    intro x hx
    simp only [List.map_cons, List.map_nil, List.mem_singleton]
    intro hx2
    rw [hx2, hid] at hx
    simp only [List.mem_map] at hx
    obtain ⟨m, hm, hmx⟩ := hx
    exact absurd hmx (Nat.ne_of_lt (h1 m hm))

theorem get_or_create_wf (db : Db) (inc hostId cb : Nat) (s s' : GraphStore)
    (r : Option AttackGraphNode) (h : get_or_create_node db inc hostId cb s = (s', r))
    (hwf : WF s) : WF s' := by
  rcases get_or_create_cases db inc hostId cb s s' r h with ⟨rfl, _⟩ | ⟨n, _, rfl, hid, _⟩
  · exact hwf
  · exact push_node_wf s n hid hwf

theorem get_or_create_edges (db : Db) (inc hostId cb : Nat) (s s' : GraphStore)
    (r : Option AttackGraphNode) (h : get_or_create_node db inc hostId cb s = (s', r)) :
    s'.edges = s.edges := by
  rcases get_or_create_cases db inc hostId cb s s' r h with ⟨rfl, _⟩ | ⟨n, _, rfl, _, _⟩
  · rfl
  · rfl

theorem get_or_create_filter_ne (db : Db) (inc hostId cb : Nat) (s s' : GraphStore)
    (r : Option AttackGraphNode) (h : get_or_create_node db inc hostId cb s = (s', r)) :
    s'.nodes.filter (fun n => n.incidentId ≠ inc) =
      s.nodes.filter (fun n => n.incidentId ≠ inc) := by
  rcases get_or_create_cases db inc hostId cb s s' r h with ⟨rfl, _⟩ | ⟨n, _, rfl, _, hinc⟩
  · rfl
  · rw [push_node_nodes, List.filter_append]
    simp [hinc]

theorem get_or_create_some_facts (db : Db) (inc hostId cb : Nat) (s s' : GraphStore)
    (r : Option AttackGraphNode) (n : AttackGraphNode)
    (h : get_or_create_node db inc hostId cb s = (s', r)) (hr : r = some n) :
    (∃ m ∈ s'.nodes, m.id = n.id ∧ m.incidentId = inc) ∧ n.incidentId = inc := by
  rcases get_or_create_cases db inc hostId cb s s' r h with ⟨rfl, hc⟩ | ⟨m, hm, rfl, hid, hinc⟩
  · rcases hc with hc | ⟨m, hm, hmem, hinc⟩
    · rw [hr] at hc; cases hc
    · rw [hr] at hm
      injection hm with hm
      subst hm
      exact ⟨⟨n, hmem, rfl, hinc⟩, hinc⟩
  · rw [hr] at hm
    injection hm with hm
    subst hm
    refine ⟨⟨n, ?_, rfl, hinc⟩, hinc⟩
    rw [push_node_nodes]
    simp

theorem update_preserve_witness (s : GraphStore) (nid0 : Nat)
    (f : AttackGraphNode → AttackGraphNode) (hfid : ∀ n, (f n).id = n.id)
    (hfinc : ∀ n, (f n).incidentId = n.incidentId) (inc nid : Nat)
    (h : ∃ m ∈ s.nodes, m.id = nid ∧ m.incidentId = inc) :
    ∃ m ∈ (update_node s nid0 f).nodes, m.id = nid ∧ m.incidentId = inc := by
  obtain ⟨m, hm, h1, h2⟩ := h
  refine ⟨if m.id == nid0 then f m else m, ?_, ?_, ?_⟩
  · simp only [update_node]
    exact List.mem_map_of_mem _ hm
  · by_cases hbe : (m.id == nid0 : Bool)
    · simp only [hbe, if_true]; rw [hfid m]; exact h1
    · simp only [hbe, Bool.false_eq_true, if_false]; exact h1
  · by_cases hbe : (m.id == nid0 : Bool)
    · simp only [hbe, if_true]; rw [hfinc m]; exact h2
    · simp only [hbe, Bool.false_eq_true, if_false]; exact h2

/-- Everything the incremental updater can do on success: it never touches
another incident's nodes (given store well-formedness), and it either leaves
the edge table alone or appends exactly one deduplicated `lateral_movement`
edge for the incident. -/
theorem process_event_ok_spec (db : Db) (ev : TimelineEvent) (s0 s1 : GraphStore)
    (h : process_event_for_graph db ev s0 = .ok s1) :
    (s1.edges = s0.edges ∨ ∃ sn tn : AttackGraphNode,
      (s0.edges.any (fun e => e.incidentId == ev.incidentId && e.sourceNodeId == sn.id &&
        e.targetNodeId == tn.id && e.edgeType == "lateral_movement")) = false ∧
      s1.edges = s0.edges ++ [mkEventLateralEdge ev sn tn]) ∧
    (WF s0 → s1.nodes.filter (fun n => n.incidentId ≠ ev.incidentId)
       = s0.nodes.filter (fun n => n.incidentId ≠ ev.incidentId)) := by
  cases hh : ev.hostId with
  | none =>
    simp only [process_event_for_graph, hh] at h
    injection h with h
    subst h
    exact ⟨Or.inl rfl, fun _ => rfl⟩
  | some hostId =>
    simp only [process_event_for_graph, hh] at h
    rcases hg1 : get_or_create_node db ev.incidentId hostId ev.createdBy s0 with ⟨sA, r⟩
    rw [hg1] at h
    simp only at h
    cases hsf1 : step_flag sA r (ev.mitreTactic == some "initial-access")
        (fun n => { n with isInitialAccess := true }) with
    | error msg => rw [hsf1] at h; exact absurd h (by simp)
    | ok sB =>
    rw [hsf1] at h
    simp only at h
    cases hsf2 : step_flag sB r (ev.mitreTactic == some "impact")
        (fun n => { n with isObjective := true }) with
    | error msg => rw [hsf2] at h; exact absurd h (by simp)
    | ok sC =>
    rw [hsf2] at h
    simp only at h
    have eA : sA.edges = s0.edges := get_or_create_edges db ev.incidentId hostId ev.createdBy
      s0 sA r hg1
    have eB : sB.edges = sA.edges := by
      rcases step_flag_ok sA r _ _ sB hsf1 with h' | ⟨tn, _, h'⟩
      · rw [h']
      · rw [h']; rfl
    have eC : sC.edges = sB.edges := by
      rcases step_flag_ok sB r _ _ sC hsf2 with h' | ⟨tn, _, h'⟩
      · rw [h']
      · rw [h']; rfl
    have eC0 : sC.edges = s0.edges := by rw [eC, eB, eA]
    -- node-side facts under WF, carried as implications
    have nodeChain : WF s0 →
        (sC.nodes.filter (fun n => n.incidentId ≠ ev.incidentId)
          = s0.nodes.filter (fun n => n.incidentId ≠ ev.incidentId)) ∧ WF sC ∧
        (∀ tn, r = some tn →
          ∃ m ∈ sC.nodes, m.id = tn.id ∧ m.incidentId = ev.incidentId) := by
      intro hwf
      have wA : WF sA := get_or_create_wf db ev.incidentId hostId ev.createdBy s0 sA r hg1 hwf
      have fA : sA.nodes.filter (fun n => n.incidentId ≠ ev.incidentId)
          = s0.nodes.filter (fun n => n.incidentId ≠ ev.incidentId) :=
        get_or_create_filter_ne db ev.incidentId hostId ev.createdBy s0 sA r hg1
      have witA : ∀ tn, r = some tn →
          ∃ m ∈ sA.nodes, m.id = tn.id ∧ m.incidentId = ev.incidentId := by
        intro tn htn
        exact (get_or_create_some_facts db ev.incidentId hostId ev.createdBy s0 sA r tn
          hg1 htn).1
      have stepB : (sB.nodes.filter (fun n => n.incidentId ≠ ev.incidentId)
          = sA.nodes.filter (fun n => n.incidentId ≠ ev.incidentId)) ∧ WF sB ∧
          (∀ tn, r = some tn →
            ∃ m ∈ sB.nodes, m.id = tn.id ∧ m.incidentId = ev.incidentId) := by
        rcases step_flag_ok sA r _ _ sB hsf1 with h' | ⟨tn, htn, h'⟩
        · subst h'; exact ⟨rfl, wA, witA⟩
        · subst h'
          refine ⟨?_, update_node_wf sA tn.id
            (fun n => { n with isInitialAccess := true }) (fun n => rfl) wA, ?_⟩
          · exact filter_map_update ev.incidentId
              (fun n => { n with isInitialAccess := true }) (fun n => rfl) sA.nodes tn.id
              (witA tn htn) wA.2.2
          · intro tn' htn'
            exact update_preserve_witness sA tn.id
              (fun n => { n with isInitialAccess := true }) (fun n => rfl) (fun n => rfl)
              ev.incidentId tn'.id (witA tn' htn')
      have stepC : (sC.nodes.filter (fun n => n.incidentId ≠ ev.incidentId)
          = sB.nodes.filter (fun n => n.incidentId ≠ ev.incidentId)) ∧ WF sC ∧
          (∀ tn, r = some tn →
            ∃ m ∈ sC.nodes, m.id = tn.id ∧ m.incidentId = ev.incidentId) := by
        rcases step_flag_ok sB r _ _ sC hsf2 with h' | ⟨tn, htn, h'⟩
        · subst h'; exact ⟨rfl, stepB.2.1, stepB.2.2⟩
        · subst h'
          refine ⟨?_, update_node_wf sB tn.id
            (fun n => { n with isObjective := true }) (fun n => rfl) stepB.2.1, ?_⟩
          · exact filter_map_update ev.incidentId
              (fun n => { n with isObjective := true }) (fun n => rfl) sB.nodes tn.id
              (stepB.2.2 tn htn) stepB.2.1.2.2
          · intro tn' htn'
            exact update_preserve_witness sB tn.id
              (fun n => { n with isObjective := true }) (fun n => rfl) (fun n => rfl)
              ev.incidentId tn'.id (stepB.2.2 tn' htn')
      exact ⟨by rw [stepC.1, stepB.1, fA], stepC.2.1, stepC.2.2⟩
    cases hlat : (ev.mitreTactic == some "lateral-movement" && strTruthy ev.source : Bool) with
    | false =>
      rw [hlat] at h
      simp only [Bool.false_eq_true, if_false] at h
      injection h with h
      subst h
      exact ⟨Or.inl eC0, fun hwf => (nodeChain hwf).1⟩
    | true =>
      rw [hlat] at h
      simp only [if_true] at h
      cases hres : resolve_event_source db ev with
      | none =>
        rw [hres] at h
        simp only at h
        injection h with h
        subst h
        exact ⟨Or.inl eC0, fun hwf => (nodeChain hwf).1⟩
      | some sh =>
        rw [hres] at h
        simp only at h
        rcases hg2 : get_or_create_node db ev.incidentId sh.id ev.createdBy sC with ⟨sD, r2⟩
        rw [hg2] at h
        simp only at h
        have eD : sD.edges = s0.edges := by
          rw [get_or_create_edges db ev.incidentId sh.id ev.createdBy sC sD r2 hg2, eC0]
        have fD : WF s0 → sD.nodes.filter (fun n => n.incidentId ≠ ev.incidentId)
            = s0.nodes.filter (fun n => n.incidentId ≠ ev.incidentId) := by
          intro hwf
          rw [get_or_create_filter_ne db ev.incidentId sh.id ev.createdBy sC sD r2 hg2,
            (nodeChain hwf).1]
        cases r2 with
        | none =>
          cases hr : r with
          | none => rw [hr] at h; exact absurd h (by simp)
          | some tn => rw [hr] at h; exact absurd h (by simp)
        | some sn =>
          cases hr : r with
          | none => rw [hr] at h; exact absurd h (by simp)
          | some tn =>
            rw [hr] at h
            simp only at h
            by_cases hex : edge_exists_incident sD ev.incidentId sn.id tn.id "lateral_movement"
            · rw [if_pos hex] at h
              injection h with h
              subst h
              exact ⟨Or.inl eD, fD⟩
            · rw [if_neg hex] at h
              injection h with h
              subst h
              refine ⟨Or.inr ⟨sn, tn, ?_, by rw [push_edge_edges, eD]⟩, ?_⟩
              · have : edge_exists_incident sD ev.incidentId sn.id tn.id "lateral_movement"
                    = false := by simpa using hex
                rw [edge_exists_incident, eD] at this
                exact this
              · intro hwf
                rw [push_edge_nodes]
                exact fD hwf

theorem filter_idem {α : Type _} (p : α → Bool) (l : List α) :
    (l.filter p).filter p = l.filter p := by
  induction l with
  | nil => rfl
  | cons a t ih => by_cases hpa : p a <;> simp [List.filter_cons, hpa, ih]

theorem alookup_some_mem [BEq α] (m : List (α × β)) (k : α) (v : β)
    (h : alookup m k = some v) : ∃ p ∈ m, p.2 = v := by
  simp only [alookup, Option.map_eq_some'] at h
  obtain ⟨p, hp, hv⟩ := h
  exact ⟨p, List.mem_of_find?_eq_some hp, hv⟩

theorem pairwise_filter_append_singleton (l : List AttackGraphEdge) (e : AttackGraphEdge)
    (p : AttackGraphEdge → Bool)
    (hl : TriplesDistinct (l.filter p))
    (hnew : ∀ a ∈ l.filter p, ¬(a.sourceNodeId = e.sourceNodeId ∧
      a.targetNodeId = e.targetNodeId ∧ a.edgeType = e.edgeType)) :
    TriplesDistinct ((l ++ [e]).filter p) := by
  rw [List.filter_append]
  refine List.pairwise_append.mpr
    ⟨hl, by cases hpe : p e <;> simp [List.filter_cons, hpe], ?_⟩
  intro a ha b hb
  have : b = e := by
    rcases List.mem_filter.mp hb with ⟨hb1, _⟩
    simpa using hb1
  subst this
  exact hnew a ha

theorem sub_loop_inv (inc u : Nat) (hn : AttackGraphNode) :
    ∀ (pending : List AttackGraphNode) (s s' : GraphStore) (ns : List AttackGraphNode)
      (es : List AttackGraphEdge), sub_loop inc u hn pending s = (s', ns, es) →
      hn.id < s.nextId →
      EdgesBounded s →
      TriplesDistinct (s.edges.filter (fun e => e.incidentId == inc)) →
      EdgesBounded s' ∧ TriplesDistinct (s'.edges.filter (fun e => e.incidentId == inc)) := by
  intro pending
  induction pending with
  | nil =>
    intro s s' ns es h hhn hb hd
    simp only [sub_loop] at h
    injection h with h1 _
    subst h1
    exact ⟨hb, hd⟩
  | cons p rest ih =>
    intro s s' ns es h hhn hb hd
    rcases hrec : sub_loop inc u hn rest
        (push_edge (push_node s (place_sub hn p s.nextId))
          (mkSubEdge inc u hn (place_sub hn p s.nextId))) with ⟨s3, ns3, es3⟩
    simp only [sub_loop, hrec] at h
    injection h with h1 _
    subst h1
    refine ih _ s3 ns3 es3 hrec ?_ ?_ ?_
    · simp only [push_edge_nextId, push_node_nextId]
      omega
    · intro e he
      simp only [push_edge_edges, push_node_edges] at he
      simp only [push_edge_nextId, push_node_nextId]
      rcases List.mem_append.mp he with he | he
      · obtain ⟨h1, h2⟩ := hb e he
        exact ⟨by omega, by omega⟩
      · rw [List.mem_singleton.mp he]
        simp only [mkSubEdge, place_sub]
        omega
    · simp only [push_edge_edges, push_node_edges]
      apply pairwise_filter_append_singleton _ _ _ hd
      intro a ha
      obtain ⟨_, h2⟩ := hb a (List.mem_of_mem_filter ha)
      simp only [mkSubEdge, place_sub]
      intro hcon
      obtain ⟨_, hc2, _⟩ := hcon
      omega

theorem host_loop_inv (inc u : Nat) (accG : List (Nat × List CompromisedAccount))
    (malG : List (Nat × List MalwareTool)) (indG : List (Nat × List HostBasedIndicator)) :
    ∀ (hosts : List CompromisedHost) (i : Nat) (s s' : GraphStore)
      (m m' : List (Nat × AttackGraphNode)) (ns : List AttackGraphNode)
      (es : List AttackGraphEdge),
      host_loop inc u accG malG indG hosts i s m = (s', m', ns, es) →
      EdgesBounded s →
      TriplesDistinct (s.edges.filter (fun e => e.incidentId == inc)) →
      EdgesBounded s' ∧ TriplesDistinct (s'.edges.filter (fun e => e.incidentId == inc)) := by
  intro hosts
  induction hosts with
  | nil =>
    intro i s s' m m' ns es h hb hd
    simp only [host_loop] at h
    injection h with h1 _
    subst h1
    exact ⟨hb, hd⟩
  | cons h rest ih =>
    intro i s s' m m' ns es hh hb hd
    rcases hsub : sub_loop inc u (create_host_node inc h i u s.nextId)
        (sub_elements inc h u accG malG indG)
        (push_node s (create_host_node inc h i u s.nextId)) with ⟨s2, sns, ses⟩
    rcases hrec : host_loop inc u accG malG indG rest (i + 1) s2
        ((h.id, create_host_node inc h i u s.nextId) :: m) with ⟨s3, m2, ns3, es3⟩
    simp only [host_loop, hsub, hrec] at hh
    injection hh with h1 _
    subst h1
    have hpush : EdgesBounded (push_node s (create_host_node inc h i u s.nextId)) := by
      intro e he
      rw [push_node_edges] at he
      rw [push_node_nextId]
      obtain ⟨h1, h2⟩ := hb e he
      exact ⟨by omega, by omega⟩
    obtain ⟨hb2, hd2⟩ := sub_loop_inv inc u (create_host_node inc h i u s.nextId) _ _ s2
      sns ses hsub (by rw [create_host_node_id, push_node_nextId]; omega) hpush
      (by rw [push_node_edges]; exact hd)
    exact ih (i + 1) s2 s3 _ m2 ns3 es3 hrec hb2 hd2

theorem net_loop_inv (inc u : Nat) (nodeMap : List (Nat × AttackGraphNode))
    (hnIdx ipIdx : List (String × Nat)) :
    ∀ (iocs : List NetworkIndicator) (ipMap : List (String × AttackGraphNode)) (x y : Int)
      (s s' : GraphStore) (ns : List AttackGraphNode) (es : List AttackGraphEdge),
      net_loop inc u nodeMap hnIdx ipIdx iocs ipMap x y s = (s', ns, es) →
      (∀ q ∈ nodeMap, q.2.id < s.nextId) →
      (∀ q ∈ ipMap, q.2.id < s.nextId) →
      EdgesBounded s →
      TriplesDistinct (s.edges.filter (fun e => e.incidentId == inc)) →
      EdgesBounded s' ∧ TriplesDistinct (s'.edges.filter (fun e => e.incidentId == inc)) := by
  intro iocs
  induction iocs with
  | nil =>
    intro ipMap x y s s' ns es h _ _ hb hd
    simp only [net_loop] at h
    injection h with h1 _
    subst h1
    exact ⟨hb, hd⟩
  | cons ioc rest ih =>
    intro ipMap x y s s' ns es h hnm hipm hb hd
    cases hres : resolve_host_id ioc.hostId ioc.sourceHost hnIdx ipIdx with
    | none =>
      simp only [net_loop, hres] at h
      exact ih ipMap x y s s' ns es h hnm hipm hb hd
    | some hid =>
      cases hmap : alookup nodeMap hid with
      | none =>
        simp only [net_loop, hres, hmap] at h
        exact ih ipMap x y s s' ns es h hnm hipm hb hd
      | some hostNode =>
        have hhostid : hostNode.id < s.nextId := by
          obtain ⟨q, hq, hq2⟩ := alookup_some_mem nodeMap hid hostNode hmap
          rw [← hq2]
          exact hnm q hq
        cases hip : alookup ipMap ioc.dnsIp with
        | some existingNode =>
          have hexid : existingNode.id < s.nextId := by
            obtain ⟨q, hq, hq2⟩ := alookup_some_mem ipMap ioc.dnsIp existingNode hip
            rw [← hq2]
            exact hipm q hq
          by_cases hex : edge_exists s hostNode.id existingNode.id "associated_with"
          · simp only [net_loop, hres, hmap, hip, hex, if_true] at h
            exact ih ipMap x y s s' ns es h hnm hipm hb hd
          · rcases hrec : net_loop inc u nodeMap hnIdx ipIdx rest ipMap x y
                (push_edge s (mkIocEdge inc hostNode existingNode ioc u)) with ⟨s3, ns3, es3⟩
            simp only [net_loop, hres, hmap, hip, hex, if_false, hrec] at h
            injection h with h1 _
            subst h1
            refine ih ipMap x y _ s3 ns3 es3 hrec (by simpa using hnm)
              (by simpa using hipm) ?_ ?_
            · intro e he
              rw [push_edge_edges] at he
              rw [push_edge_nextId]
              rcases List.mem_append.mp he with he | he
              · exact hb e he
              · rw [List.mem_singleton.mp he]
                exact ⟨hhostid, hexid⟩
            · rw [push_edge_edges]
              apply pairwise_filter_append_singleton _ _ _ hd
              intro a ha hcon
              obtain ⟨hc1, hc2, hc3⟩ := hcon
              have : edge_exists s hostNode.id existingNode.id "associated_with" = true := by
                rw [edge_exists]
                rw [List.any_eq_true]
                refine ⟨a, List.mem_of_mem_filter ha, ?_⟩
                simp [mkIocEdge] at hc1 hc2 hc3
                simp [hc1, hc2, hc3]
              exact hex (by simpa using this)
        | none =>
          rcases hrec : net_loop inc u nodeMap hnIdx ipIdx rest
              ((ioc.dnsIp, mkNetIocNode inc u ioc x y s.nextId) :: ipMap)
              (if x + 150 > 1200 then 100 else x + 150)
              (if x + 150 > 1200 then y + 120 else y)
              (push_edge (push_node s (mkNetIocNode inc u ioc x y s.nextId))
                (mkIocEdge inc hostNode (mkNetIocNode inc u ioc x y s.nextId) ioc u))
            with ⟨s3, ns3, es3⟩
          simp only [net_loop, hres, hmap, hip, hrec] at h
          injection h with h1 _
          subst h1
          refine ih _ _ _ _ s3 ns3 es3 hrec ?_ ?_ ?_ ?_
          · intro q hq
            simp only [push_edge_nextId, push_node_nextId]
            exact Nat.lt_succ_of_lt (hnm q hq)
          · intro q hq
            simp only [push_edge_nextId, push_node_nextId]
            rcases List.mem_cons.mp hq with rfl | hq
            · simp only [mkNetIocNode]
              omega
            · exact Nat.lt_succ_of_lt (hipm q hq)
          · intro e he
            simp only [push_edge_edges, push_node_edges] at he
            simp only [push_edge_nextId, push_node_nextId]
            rcases List.mem_append.mp he with he | he
            · obtain ⟨h1, h2⟩ := hb e he
              exact ⟨by omega, by omega⟩
            · rw [List.mem_singleton.mp he]
              simp only [mkIocEdge, mkNetIocNode]
              omega
          · simp only [push_edge_edges, push_node_edges]
            apply pairwise_filter_append_singleton _ _ _ hd
            intro a ha hcon
            obtain ⟨_, hc2, _⟩ := hcon
            obtain ⟨_, h2⟩ := hb a (List.mem_of_mem_filter ha)
            simp only [mkIocEdge, mkNetIocNode] at hc2
            omega

theorem lateral_loop_inv (inc u : Nat) (nodeMap : List (Nat × AttackGraphNode)) :
    ∀ (events : List TimelineEvent) (prev : Option Nat) (s s' : GraphStore)
      (es : List AttackGraphEdge), lateral_loop inc u nodeMap events prev s = (s', es) →
      (∀ q ∈ nodeMap, q.2.id < s.nextId) →
      EdgesBounded s →
      TriplesDistinct (s.edges.filter (fun e => e.incidentId == inc)) →
      EdgesBounded s' ∧ TriplesDistinct (s'.edges.filter (fun e => e.incidentId == inc)) := by
  intro events
  induction events with
  | nil =>
    intro prev s s' es h _ hb hd
    simp only [lateral_loop] at h
    injection h with h1 _
    subst h1
    exact ⟨hb, hd⟩
  | cons ev rest ih =>
    intro prev s s' es h hnm hb hd
    cases hh : ev.hostId with
    | none =>
      simp only [lateral_loop, hh] at h
      exact ih prev s s' es h hnm hb hd
    | some cur =>
      cases hstep : lateral_step inc u nodeMap ev prev cur s with
      | none =>
        simp only [lateral_loop, hh, hstep] at h
        exact ih (some cur) s s' es h hnm hb hd
      | some e =>
        rcases hrec : lateral_loop inc u nodeMap rest (some cur) (push_edge s e)
          with ⟨s2, es2⟩
        simp only [lateral_loop, hh, hstep, hrec] at h
        injection h with h1 _
        subst h1
        obtain ⟨p, src, tgt, _, _, hsrc, htgt, hexf, he⟩ :=
          lateral_step_some inc u nodeMap ev prev cur s e hstep
        have hsrcid : src.id < s.nextId := by
          obtain ⟨q, hq, hq2⟩ := alookup_some_mem nodeMap p src hsrc
          rw [← hq2]
          exact hnm q hq
        have htgtid : tgt.id < s.nextId := by
          obtain ⟨q, hq, hq2⟩ := alookup_some_mem nodeMap cur tgt htgt
          rw [← hq2]
          exact hnm q hq
        refine ih (some cur) _ s2 es2 hrec (by simpa using hnm) ?_ ?_
        · intro e' he'
          rw [push_edge_edges] at he'
          rw [push_edge_nextId]
          rcases List.mem_append.mp he' with he' | he'
          · exact hb e' he'
          · rw [List.mem_singleton.mp he', he]
            simp only [mkBulkLateralEdge]
            exact ⟨hsrcid, htgtid⟩
        · rw [push_edge_edges]
          apply pairwise_filter_append_singleton _ _ _ hd
          intro a ha hcon
          obtain ⟨hc1, hc2, hc3⟩ := hcon
          rw [he] at hc1 hc2 hc3
          simp only [mkBulkLateralEdge] at hc1 hc2 hc3
          have : edge_exists s src.id tgt.id "lateral_movement" = true := by
            rw [edge_exists, List.any_eq_true]
            refine ⟨a, List.mem_of_mem_filter ha, ?_⟩
            simp [hc1, hc2, hc3]
          rw [hexf] at this
          exact Bool.false_ne_true this

theorem countP_or_disjoint (l : List α) (p q : α → Bool)
    (h : ∀ x ∈ l, ¬(p x = true ∧ q x = true)) :
    l.countP (fun x => p x || q x) = l.countP p + l.countP q := by
  induction l with
  | nil => simp
  | cons a t ih =>
    have ht : ∀ x ∈ t, ¬(p x = true ∧ q x = true) :=
      fun x hx => h x (List.mem_cons_of_mem a hx)
    rw [List.countP_cons, List.countP_cons, List.countP_cons, ih ht]
    cases hpa : p a <;> cases hqa : q a
    · simp [hpa, hqa]
    · simp [hpa, hqa]; omega
    · simp [hpa, hqa]; omega
    · exact absurd ⟨hpa, hqa⟩ (h a (List.mem_cons_self a t))

theorem sum_countP_eq (items : List α) (r : α → Option Nat) :
    ∀ (ids : List Nat), ids.Nodup →
      (ids.map (fun i => items.countP (fun it => r it == some i))).sum
        = items.countP (fun it => match r it with
            | some v => ids.contains v
            | none => false) := by
  intro ids
  induction ids with
  | nil =>
    intro _
    simp only [List.map_nil, List.sum_nil]
    symm
    rw [List.countP_eq_zero]
    intro it _
    cases hr : r it <;> simp [hr]
  | cons i rest ih =>
    intro hnodup
    have h1 : rest.Nodup := (List.nodup_cons.mp hnodup).2
    have h2 : i ∉ rest := (List.nodup_cons.mp hnodup).1
    simp only [List.map_cons, List.sum_cons]
    rw [ih h1]
    have hsplit : items.countP (fun it => match r it with
        | some v => (i :: rest).contains v
        | none => false)
      = items.countP (fun it => r it == some i) +
        items.countP (fun it => match r it with
          | some v => rest.contains v
          | none => false) := by
      rw [← countP_or_disjoint]
      · apply List.countP_congr
        intro it _
        cases hr : r it with
        | none => simp [hr]
        | some v =>
          simp only [hr, List.contains_cons]
          constructor
          · intro hv
            rcases Bool.or_eq_true_iff.mp hv with hv | hv
            · simp only [beq_iff_eq] at hv
              subst hv
              simp
            · simp [List.elem_iff.mp hv]
          · intro hv
            rcases Bool.or_eq_true_iff.mp hv with hv | hv
            · simp only [beq_iff_eq, Option.some.injEq] at hv
              subst hv
              simp
            · simp [List.elem_iff.mp hv]
      · intro it _ hcon
        obtain ⟨hc1, hc2⟩ := hcon
        cases hr : r it with
        | none => rw [hr] at hc2; simp at hc2
        | some v =>
          rw [hr] at hc1 hc2
          simp only [beq_iff_eq, Option.some.injEq] at hc1
          subst hc1
          exact h2 (List.elem_iff.mp hc2)
    rw [hsplit]

theorem netResolvable_eq_participates (nodeMap : List (Nat × AttackGraphNode))
    (hnIdx ipIdx : List (String × Nat)) (ids : List Nat)
    (hiff : ∀ hid, (alookup nodeMap hid).isSome ↔ hid ∈ ids)
    (ioc : NetworkIndicator) :
    netResolvable nodeMap hnIdx ipIdx ioc = iocParticipates ids hnIdx ipIdx ioc := by
  unfold netResolvable iocParticipates resolvesToIncidentHost
  cases hres : resolve_host_id ioc.hostId ioc.sourceHost hnIdx ipIdx with
  | none => rfl
  | some hid =>
    show (alookup nodeMap hid).isSome = ids.contains hid
    rw [Bool.eq_iff_iff, hiff hid, List.elem_iff]

theorem net_loop_filter (inc u : Nat) (nodeMap : List (Nat × AttackGraphNode))
    (hnIdx ipIdx : List (String × Nat)) :
    ∀ (iocs : List NetworkIndicator) (ipMap : List (String × AttackGraphNode)) (x y : Int)
      (s : GraphStore),
      net_loop inc u nodeMap hnIdx ipIdx iocs ipMap x y s =
        net_loop inc u nodeMap hnIdx ipIdx
          (iocs.filter (netResolvable nodeMap hnIdx ipIdx)) ipMap x y s := by
  intro iocs
  induction iocs with
  | nil => intro ipMap x y s; rfl
  | cons ioc rest ih =>
    intro ipMap x y s
    cases hres : resolve_host_id ioc.hostId ioc.sourceHost hnIdx ipIdx with
    | none =>
      have hnr : netResolvable nodeMap hnIdx ipIdx ioc = false := by
        simp [netResolvable, hres]
      simp only [net_loop, hres, List.filter_cons, hnr, Bool.false_eq_true, if_false]
      exact ih ipMap x y s
    | some hid =>
      cases hmap : alookup nodeMap hid with
      | none =>
        have hnr : netResolvable nodeMap hnIdx ipIdx ioc = false := by
          simp [netResolvable, hres, hmap]
        simp only [net_loop, hres, hmap, List.filter_cons, hnr, Bool.false_eq_true, if_false]
        exact ih ipMap x y s
      | some hostNode =>
        have hnr : netResolvable nodeMap hnIdx ipIdx ioc = true := by
          simp [netResolvable, hres, hmap]
        simp only [net_loop, hres, hmap, List.filter_cons, hnr, if_true]
        cases hip : alookup ipMap ioc.dnsIp with
        | some existingNode =>
          by_cases hex : edge_exists s hostNode.id existingNode.id "associated_with"
          · simp only [hip, hex, if_true]
            exact ih ipMap x y s
          · simp only [hip, hex, Bool.false_eq_true, if_false]
            rw [ih ipMap x y (push_edge s (mkIocEdge inc hostNode existingNode ioc u))]
        | none =>
          simp only [hip]
          rw [ih]

theorem map_sum_split (hosts : List α) (f : α → Nat) :
    (hosts.map (fun h => 1 + f h)).sum = hosts.length + (hosts.map f).sum := by
  induction hosts with
  | nil => simp
  | cons h t ih => simp [ih]; omega

theorem map_sum_add (l : List α) (f g : α → Nat) :
    (l.map (fun h => f h + g h)).sum = (l.map f).sum + (l.map g).sum := by
  induction l with
  | nil => simp
  | cons h t ih => simp [ih]; omega

theorem sub_elements_length (inc : Nat) (h : CompromisedHost) (u : Nat)
    (accG : List (Nat × List CompromisedAccount)) (malG : List (Nat × List MalwareTool))
    (indG : List (Nat × List HostBasedIndicator)) :
    (sub_elements inc h u accG malG indG).length =
      (groupGet accG h.id).length + ((groupGet malG h.id).length +
        (groupGet indG h.id).length) := by
  simp [sub_elements]

/-! ### Re-run simulation: a bulk run's created content is invariant (up to an
id offset) under the starting allocator value and the surviving foreign
edges. -/

theorem alookup_map_snd [BEq α] (m : List (α × β)) (f : β → γ) (k : α) :
    alookup (m.map (fun q => (q.1, f q.2))) k = (alookup m k).map f := by
  induction m with
  | nil => rfl
  | cons q rest ih =>
    obtain ⟨k', v⟩ := q
    simp only [List.map_cons]
    rw [alookup_cons, alookup_cons]
    cases hbe : (k' == k : Bool)
    · simp only [hbe, Bool.false_eq_true, if_false]
      exact ih
    · simp only [hbe, if_true, Option.map_some']

theorem eshift_sourceNodeId (d : Nat) (e : AttackGraphEdge) :
    (eshift d e).sourceNodeId = e.sourceNodeId + d := rfl

theorem eshift_targetNodeId (d : Nat) (e : AttackGraphEdge) :
    (eshift d e).targetNodeId = e.targetNodeId + d := rfl

theorem nshift_id (d : Nat) (n : AttackGraphNode) : (nshift d n).id = n.id + d := rfl

theorem list_any_congr (l : List α) (p q : α → Bool) (h : ∀ x ∈ l, p x = q x) :
    l.any p = l.any q := by
  induction l with
  | nil => rfl
  | cons a t ih =>
    simp only [List.any_cons]
    rw [h a (List.mem_cons_self a t), ih (fun x hx => h x (List.mem_cons_of_mem a hx))]

theorem edge_exists_rel (c d : Nat) (s1 s2 : GraphStore) (h : StoreRel c d s1 s2)
    (a b : Nat) (ha : c ≤ a) (_hb : c ≤ b) (ty : String) :
    edge_exists s2 (a + d) (b + d) ty = edge_exists s1 a b ty := by
  obtain ⟨_, _, E, F, h1, h2, hE, hF⟩ := h
  rw [edge_exists, edge_exists, h1, h2, List.any_append, List.any_append]
  have hE2 : ∀ (x y : Nat), c ≤ x →
      E.any (fun e => e.sourceNodeId == x && e.targetNodeId == y && e.edgeType == ty)
        = false := by
    intro x y hx
    rw [List.any_eq_false]
    intro e he hc
    simp only [Bool.and_eq_true, beq_iff_eq] at hc
    have := (hE e he).1
    omega
  rw [hE2 (a + d) (b + d) (by omega), hE2 a b ha]
  congr 1
  rw [List.any_map]
  apply list_any_congr
  intro e _
  simp only [Function.comp, eshift_sourceNodeId, eshift_targetNodeId]
  have h1' : ((e.sourceNodeId + d == a + d) : Bool) = (e.sourceNodeId == a) := by
    cases hx : (e.sourceNodeId == a : Bool) <;> simp at hx <;> simp [hx]
  have h2' : ((e.targetNodeId + d == b + d) : Bool) = (e.targetNodeId == b) := by
    cases hx : (e.targetNodeId == b : Bool) <;> simp at hx <;> simp [hx]
  rw [h1', h2']
  rfl

theorem storeRel_push_edge (c d : Nat) (s1 s2 : GraphStore) (h : StoreRel c d s1 s2)
    (e : AttackGraphEdge) (he : c ≤ e.sourceNodeId ∧ c ≤ e.targetNodeId) :
    StoreRel c d (push_edge s1 e) (push_edge s2 (eshift d e)) := by
  obtain ⟨hn, hc, E, F, h1, h2, hE, hF⟩ := h
  refine ⟨hn, hc, E, F ++ [e], ?_, ?_, hE, ?_⟩
  · rw [push_edge_edges, h1, List.append_assoc]
  · rw [push_edge_edges, h2]
    simp
  · intro e' he'
    rcases List.mem_append.mp he' with he' | he'
    · exact hF e' he'
    · rw [List.mem_singleton.mp he']
      exact he

theorem storeRel_push_node (c d : Nat) (s1 s2 : GraphStore) (h : StoreRel c d s1 s2)
    (n1 n2 : AttackGraphNode) :
    StoreRel c d (push_node s1 n1) (push_node s2 n2) := by
  obtain ⟨hn, hc, E, F, h1, h2, hE, hF⟩ := h
  exact ⟨by simp only [push_node_nextId]; omega, by simp only [push_node_nextId]; omega,
    E, F, by rw [push_node_edges]; exact h1, by rw [push_node_edges]; exact h2, hE, hF⟩

theorem storeRel_nextId_le (c d : Nat) (s1 s2 : GraphStore) (h : StoreRel c d s1 s2) :
    c ≤ s1.nextId := h.2.1

theorem sub_loop_sim (inc u c d : Nat) (hn : AttackGraphNode) (hhn : c ≤ hn.id) :
    ∀ (pending : List AttackGraphNode) (s1 s2 s1' : GraphStore)
      (ns : List AttackGraphNode) (es : List AttackGraphEdge),
      StoreRel c d s1 s2 →
      sub_loop inc u hn pending s1 = (s1', ns, es) →
      ∃ s2', sub_loop inc u (nshift d hn) pending s2
          = (s2', ns.map (nshift d), es.map (eshift d)) ∧ StoreRel c d s1' s2' := by
  intro pending
  induction pending with
  | nil =>
    intro s1 s2 s1' ns es hrel h
    simp only [sub_loop] at h
    injection h with h1 h2
    injection h2 with h2 h3
    subst h1; subst h2; subst h3
    exact ⟨s2, by simp [sub_loop], hrel⟩
  | cons p rest ih =>
    intro s1 s2 s1' ns es hrel h
    rcases hrec : sub_loop inc u hn rest
        (push_edge (push_node s1 (place_sub hn p s1.nextId))
          (mkSubEdge inc u hn (place_sub hn p s1.nextId))) with ⟨s3, ns3, es3⟩
    simp only [sub_loop, hrec] at h
    injection h with h1 h2
    injection h2 with h2 h3
    subst h1; subst h2; subst h3
    have hn2 : place_sub (nshift d hn) p s2.nextId = nshift d (place_sub hn p s1.nextId) := by
      simp only [place_sub, nshift, hrel.1]
    have he2 : mkSubEdge inc u (nshift d hn) (nshift d (place_sub hn p s1.nextId))
        = eshift d (mkSubEdge inc u hn (place_sub hn p s1.nextId)) := by
      simp only [mkSubEdge, eshift, nshift]
    have hrel2 : StoreRel c d
        (push_edge (push_node s1 (place_sub hn p s1.nextId))
          (mkSubEdge inc u hn (place_sub hn p s1.nextId)))
        (push_edge (push_node s2 (place_sub (nshift d hn) p s2.nextId))
          (mkSubEdge inc u (nshift d hn) (place_sub (nshift d hn) p s2.nextId))) := by
      rw [hn2, he2]
      apply storeRel_push_edge c d _ _ (storeRel_push_node c d s1 s2 hrel _ _)
      constructor
      · simp only [mkSubEdge]
        exact hhn
      · simp only [mkSubEdge, place_sub]
        exact hrel.2.1
    obtain ⟨s2', hrun, hrel'⟩ := ih _ _ s3 ns3 es3 hrel2 hrec
    refine ⟨s2', ?_, hrel'⟩
    simp only [sub_loop, hrun, List.map_cons]
    rw [hn2, he2]

theorem create_host_node_shift (inc : Nat) (h : CompromisedHost) (i u d nid : Nat) :
    create_host_node inc h i u (nid + d) = nshift d (create_host_node inc h i u nid) := by
  simp only [create_host_node, nshift]

theorem host_loop_sim (inc u c d : Nat) (accG : List (Nat × List CompromisedAccount))
    (malG : List (Nat × List MalwareTool)) (indG : List (Nat × List HostBasedIndicator)) :
    ∀ (hosts : List CompromisedHost) (i : Nat) (s1 s2 s1' : GraphStore)
      (m1 m2 m1' : List (Nat × AttackGraphNode)) (ns : List AttackGraphNode)
      (es : List AttackGraphEdge),
      StoreRel c d s1 s2 → MapRel c d m1 m2 →
      host_loop inc u accG malG indG hosts i s1 m1 = (s1', m1', ns, es) →
      ∃ s2' m2', host_loop inc u accG malG indG hosts i s2 m2
          = (s2', m2', ns.map (nshift d), es.map (eshift d))
        ∧ StoreRel c d s1' s2' ∧ MapRel c d m1' m2' := by
  intro hosts
  induction hosts with
  | nil =>
    intro i s1 s2 s1' m1 m2 m1' ns es hrel hmrel h
    simp only [host_loop] at h
    injection h with h1 h2
    injection h2 with h2 h3
    injection h3 with h3 h4
    subst h1; subst h2; subst h3; subst h4
    exact ⟨s2, m2, by simp [host_loop], hrel, hmrel⟩
  | cons h rest ih =>
    intro i s1 s2 s1' m1 m2 m1' ns es hrel hmrel hh
    rcases hsub : sub_loop inc u (create_host_node inc h i u s1.nextId)
        (sub_elements inc h u accG malG indG)
        (push_node s1 (create_host_node inc h i u s1.nextId)) with ⟨sA2, sns, ses⟩
    rcases hrec : host_loop inc u accG malG indG rest (i + 1) sA2
        ((h.id, create_host_node inc h i u s1.nextId) :: m1) with ⟨sA3, mA2, ns3, es3⟩
    simp only [host_loop, hsub, hrec] at hh
    injection hh with h1 h2
    injection h2 with h2 h3
    injection h3 with h3 h4
    subst h1; subst h2; subst h3; subst h4
    have hna : c ≤ (create_host_node inc h i u s1.nextId).id := by
      rw [create_host_node_id]
      exact hrel.2.1
    obtain ⟨sB2, hsubB, hrelB⟩ := sub_loop_sim inc u c d
      (create_host_node inc h i u s1.nextId) hna _ _ _ sA2 sns ses
      (storeRel_push_node c d s1 s2 hrel (create_host_node inc h i u s1.nextId)
        (create_host_node inc h i u s2.nextId)) hsub
    have hmrel2 : MapRel c d ((h.id, create_host_node inc h i u s1.nextId) :: m1)
        ((h.id, create_host_node inc h i u s2.nextId) :: m2) := by
      constructor
      · rw [List.map_cons, hmrel.1, hrel.1, create_host_node_shift]
      · intro q hq
        rcases List.mem_cons.mp hq with rfl | hq
        · exact hna
        · exact hmrel.2 q hq
    obtain ⟨sB3, mB2, hrecB, hrelC, hmrelC⟩ := ih (i + 1) sA2 sB2 sA3 _ _ mA2 ns3 es3
      hrelB hmrel2 hrec
    refine ⟨sB3, mB2, ?_, hrelC, hmrelC⟩
    have hcn : create_host_node inc h i u s2.nextId
        = nshift d (create_host_node inc h i u s1.nextId) := by
      rw [hrel.1, create_host_node_shift]
    rw [← hcn] at hsubB
    simp only [host_loop, hsubB, hrecB]
    simp only [List.map_cons, List.map_append, hcn]

theorem mkNetIocNode_shift (inc u : Nat) (ioc : NetworkIndicator) (x y : Int) (d nid : Nat) :
    mkNetIocNode inc u ioc x y (nid + d) = nshift d (mkNetIocNode inc u ioc x y nid) := by
  simp only [mkNetIocNode, nshift]

theorem mkIocEdge_shift (inc : Nat) (hn en : AttackGraphNode) (ioc : NetworkIndicator)
    (u d : Nat) :
    mkIocEdge inc (nshift d hn) (nshift d en) ioc u = eshift d (mkIocEdge inc hn en ioc u) := by
  simp only [mkIocEdge, eshift, nshift]

theorem net_loop_sim (inc u c d : Nat) (nodeMap1 nodeMap2 : List (Nat × AttackGraphNode))
    (hnIdx ipIdx : List (String × Nat)) (hm : MapRel c d nodeMap1 nodeMap2) :
    ∀ (iocs : List NetworkIndicator) (ipMap1 ipMap2 : List (String × AttackGraphNode))
      (x y : Int) (s1 s2 s1' : GraphStore) (ns : List AttackGraphNode)
      (es : List AttackGraphEdge),
      StoreRel c d s1 s2 → MapRel c d ipMap1 ipMap2 →
      net_loop inc u nodeMap1 hnIdx ipIdx iocs ipMap1 x y s1 = (s1', ns, es) →
      ∃ s2', net_loop inc u nodeMap2 hnIdx ipIdx iocs ipMap2 x y s2
          = (s2', ns.map (nshift d), es.map (eshift d)) ∧ StoreRel c d s1' s2' := by
  intro iocs
  induction iocs with
  | nil =>
    intro ipMap1 ipMap2 x y s1 s2 s1' ns es hrel hiprel h
    simp only [net_loop] at h
    injection h with h1 h2
    injection h2 with h2 h3
    subst h1; subst h2; subst h3
    exact ⟨s2, by simp [net_loop], hrel⟩
  | cons ioc rest ih =>
    intro ipMap1 ipMap2 x y s1 s2 s1' ns es hrel hiprel h
    have hlkN : alookup nodeMap2 = fun k => (alookup nodeMap1 k).map (nshift d) := by
      funext k
      rw [hm.1, alookup_map_snd]
    have hlkI : alookup ipMap2 = fun k => (alookup ipMap1 k).map (nshift d) := by
      funext k
      rw [hiprel.1, alookup_map_snd]
    cases hres : resolve_host_id ioc.hostId ioc.sourceHost hnIdx ipIdx with
    | none =>
      simp only [net_loop, hres] at h ⊢
      exact ih ipMap1 ipMap2 x y s1 s2 s1' ns es hrel hiprel h
    | some hid =>
      cases hmap : alookup nodeMap1 hid with
      | none =>
        have hmap2 : alookup nodeMap2 hid = none := by rw [hlkN]; simp [hmap]
        simp only [net_loop, hres, hmap, hmap2] at h ⊢
        exact ih ipMap1 ipMap2 x y s1 s2 s1' ns es hrel hiprel h
      | some hostNode =>
        have hmap2 : alookup nodeMap2 hid = some (nshift d hostNode) := by
          rw [hlkN]; simp [hmap]
        have hhostc : c ≤ hostNode.id := by
          obtain ⟨q, hq, hq2⟩ := alookup_some_mem nodeMap1 hid hostNode hmap
          rw [← hq2]
          exact hm.2 q hq
        cases hip : alookup ipMap1 ioc.dnsIp with
        | some existingNode =>
          have hip2 : alookup ipMap2 ioc.dnsIp = some (nshift d existingNode) := by
            rw [hlkI]; simp [hip]
          have hexc : c ≤ existingNode.id := by
            obtain ⟨q, hq, hq2⟩ := alookup_some_mem ipMap1 ioc.dnsIp existingNode hip
            rw [← hq2]
            exact hiprel.2 q hq
          have hguard : edge_exists s2 (nshift d hostNode).id (nshift d existingNode).id
              "associated_with"
              = edge_exists s1 hostNode.id existingNode.id "associated_with" := by
            rw [nshift_id, nshift_id]
            exact edge_exists_rel c d s1 s2 hrel hostNode.id existingNode.id hhostc hexc _
          by_cases hex : edge_exists s1 hostNode.id existingNode.id "associated_with"
          · rw [hex] at hguard
            simp only [net_loop, hres, hmap, hmap2, hip, hip2, hex, hguard, if_true] at h ⊢
            exact ih ipMap1 ipMap2 x y s1 s2 s1' ns es hrel hiprel h
          · have hexf : edge_exists s1 hostNode.id existingNode.id "associated_with"
                = false := by simpa using hex
            rw [hexf] at hguard
            rcases hrec : net_loop inc u nodeMap1 hnIdx ipIdx rest ipMap1 x y
                (push_edge s1 (mkIocEdge inc hostNode existingNode ioc u))
              with ⟨sA3, ns3, es3⟩
            simp only [net_loop, hres, hmap, hmap2, hip, hip2, hexf, hguard,
              Bool.false_eq_true, if_false, hrec] at h ⊢
            injection h with h1 h2
            injection h2 with h2 h3
            subst h1; subst h2; subst h3
            have hrelpush : StoreRel c d
                (push_edge s1 (mkIocEdge inc hostNode existingNode ioc u))
                (push_edge s2 (mkIocEdge inc (nshift d hostNode) (nshift d existingNode)
                  ioc u)) := by
              rw [mkIocEdge_shift]
              exact storeRel_push_edge c d s1 s2 hrel _ ⟨hhostc, hexc⟩
            obtain ⟨s2', hrun, hrel'⟩ := ih _ _ x y _ _ sA3 ns3 es3 hrelpush hiprel hrec
            refine ⟨s2', ?_, hrel'⟩
            rw [hrun]
            simp only [List.map_cons, mkIocEdge_shift]
        | none =>
          have hip2 : alookup ipMap2 ioc.dnsIp = none := by
            rw [hlkI]; simp [hip]
          rcases hrec : net_loop inc u nodeMap1 hnIdx ipIdx rest
              ((ioc.dnsIp, mkNetIocNode inc u ioc x y s1.nextId) :: ipMap1)
              (if x + 150 > 1200 then 100 else x + 150)
              (if x + 150 > 1200 then y + 120 else y)
              (push_edge (push_node s1 (mkNetIocNode inc u ioc x y s1.nextId))
                (mkIocEdge inc hostNode (mkNetIocNode inc u ioc x y s1.nextId) ioc u))
            with ⟨sA3, ns3, es3⟩
          simp only [net_loop, hres, hmap, hmap2, hip, hip2, hrec] at h ⊢
          injection h with h1 h2
          injection h2 with h2 h3
          subst h1; subst h2; subst h3
          have hshift : mkNetIocNode inc u ioc x y s2.nextId
              = nshift d (mkNetIocNode inc u ioc x y s1.nextId) := by
            rw [hrel.1, mkNetIocNode_shift]
          have hiprel2 : MapRel c d
              ((ioc.dnsIp, mkNetIocNode inc u ioc x y s1.nextId) :: ipMap1)
              ((ioc.dnsIp, mkNetIocNode inc u ioc x y s2.nextId) :: ipMap2) := by
            constructor
            · rw [List.map_cons, hiprel.1, hshift]
            · intro q hq
              rcases List.mem_cons.mp hq with rfl | hq
              · simp only [mkNetIocNode]
                exact hrel.2.1
              · exact hiprel.2 q hq
          have hrelpush : StoreRel c d
              (push_edge (push_node s1 (mkNetIocNode inc u ioc x y s1.nextId))
                (mkIocEdge inc hostNode (mkNetIocNode inc u ioc x y s1.nextId) ioc u))
              (push_edge (push_node s2 (mkNetIocNode inc u ioc x y s2.nextId))
                (mkIocEdge inc (nshift d hostNode) (mkNetIocNode inc u ioc x y s2.nextId)
                  ioc u)) := by
            rw [hshift, mkIocEdge_shift]
            apply storeRel_push_edge c d _ _ (storeRel_push_node c d s1 s2 hrel _ _)
            constructor
            · simp only [mkIocEdge]
              exact hhostc
            · simp only [mkIocEdge, mkNetIocNode]
              exact hrel.2.1
          obtain ⟨s2', hrun, hrel'⟩ := ih _ _ _ _ _ _ sA3 ns3 es3 hrelpush hiprel2 hrec
          refine ⟨s2', ?_, hrel'⟩
          rw [hrun]
          simp only [List.map_cons, hshift, mkIocEdge_shift]

theorem mkBulkLateralEdge_shift (inc u : Nat) (src tgt : AttackGraphNode)
    (ev : TimelineEvent) (d : Nat) :
    mkBulkLateralEdge inc u (nshift d src) (nshift d tgt) ev
      = eshift d (mkBulkLateralEdge inc u src tgt ev) := rfl

theorem lateral_step_rel (inc u c d : Nat) (nodeMap1 nodeMap2 : List (Nat × AttackGraphNode))
    (hm : MapRel c d nodeMap1 nodeMap2) (ev : TimelineEvent) (prev : Option Nat) (cur : Nat)
    (s1 s2 : GraphStore) (hrel : StoreRel c d s1 s2) :
    lateral_step inc u nodeMap2 ev prev cur s2
        = (lateral_step inc u nodeMap1 ev prev cur s1).map (eshift d) ∧
      ∀ e, lateral_step inc u nodeMap1 ev prev cur s1 = some e →
        c ≤ e.sourceNodeId ∧ c ≤ e.targetNodeId := by
  have hlk : ∀ k, alookup nodeMap2 k = Option.map (nshift d) (alookup nodeMap1 k) := by
    intro k; rw [hm.1, alookup_map_snd]
  cases prev with
  | none =>
    refine ⟨rfl, fun e he => ?_⟩
    simp [lateral_step] at he
  | some p =>
    by_cases hpc : p ≠ cur
    · cases hsrc : alookup nodeMap1 p with
      | none =>
        constructor
        · simp only [lateral_step]
          rw [if_pos hpc, if_pos hpc]
          simp only [hlk, hsrc, Option.map_none']
        · intro e he
          simp only [lateral_step] at he
          rw [if_pos hpc] at he
          simp [hsrc] at he
      | some src =>
        cases htgt : alookup nodeMap1 cur with
        | none =>
          constructor
          · simp only [lateral_step]
            rw [if_pos hpc, if_pos hpc]
            simp only [hlk, hsrc, htgt, Option.map_none', Option.map_some']
          · intro e he
            simp only [lateral_step] at he
            rw [if_pos hpc] at he
            simp [hsrc, htgt] at he
        | some tgt =>
          have hsrcc : c ≤ src.id := by
            obtain ⟨q, hq, hv⟩ := alookup_some_mem nodeMap1 p src hsrc
            have := hm.2 q hq
            rw [hv] at this
            exact this
          have htgtc : c ≤ tgt.id := by
            obtain ⟨q, hq, hv⟩ := alookup_some_mem nodeMap1 cur tgt htgt
            have := hm.2 q hq
            rw [hv] at this
            exact this
          have hex : edge_exists s2 (src.id + d) (tgt.id + d) "lateral_movement"
              = edge_exists s1 src.id tgt.id "lateral_movement" :=
            edge_exists_rel c d s1 s2 hrel src.id tgt.id hsrcc htgtc _
          constructor
          · simp only [lateral_step]
            rw [if_pos hpc, if_pos hpc]
            simp only [hlk, hsrc, htgt, Option.map_some', nshift_id, hex]
            by_cases hee : edge_exists s1 src.id tgt.id "lateral_movement"
            · rw [if_pos hee, if_pos hee]
              rfl
            · rw [if_neg hee, if_neg hee]
              rw [mkBulkLateralEdge_shift]
              rfl
          · intro e he
            simp only [lateral_step] at he
            rw [if_pos hpc] at he
            simp only [hsrc, htgt] at he
            by_cases hee : edge_exists s1 src.id tgt.id "lateral_movement"
            · rw [if_pos hee] at he
              exact absurd he (by simp)
            · rw [if_neg hee] at he
              injection he with he
              rw [← he]
              exact ⟨hsrcc, htgtc⟩
    · constructor
      · simp only [lateral_step]
        rw [if_neg hpc, if_neg hpc]
        rfl
      · intro e he
        simp only [lateral_step] at he
        rw [if_neg hpc] at he
        exact absurd he (by simp)

theorem lateral_loop_sim (inc u c d : Nat) (nodeMap1 nodeMap2 : List (Nat × AttackGraphNode))
    (hm : MapRel c d nodeMap1 nodeMap2) :
    ∀ (events : List TimelineEvent) (prev : Option Nat) (s1 s2 s1' : GraphStore)
      (es : List AttackGraphEdge),
      StoreRel c d s1 s2 →
      lateral_loop inc u nodeMap1 events prev s1 = (s1', es) →
      ∃ s2', lateral_loop inc u nodeMap2 events prev s2 = (s2', es.map (eshift d)) ∧
        StoreRel c d s1' s2' := by
  intro events
  induction events with
  | nil =>
    intro prev s1 s2 s1' es hrel h
    simp only [lateral_loop] at h
    injection h with h1 h2
    subst h1; subst h2
    exact ⟨s2, rfl, hrel⟩
  | cons ev rest ih =>
    intro prev s1 s2 s1' es hrel h
    cases hh : ev.hostId with
    | none =>
      simp only [lateral_loop, hh] at h ⊢
      exact ih prev s1 s2 s1' es hrel h
    | some cur =>
      obtain ⟨hstep2, hbnd⟩ := lateral_step_rel inc u c d nodeMap1 nodeMap2 hm ev prev cur
        s1 s2 hrel
      cases hstep : lateral_step inc u nodeMap1 ev prev cur s1 with
      | none =>
        have hstep2' : lateral_step inc u nodeMap2 ev prev cur s2 = none := by
          rw [hstep2, hstep]; rfl
        simp only [lateral_loop, hh, hstep, hstep2'] at h ⊢
        exact ih (some cur) s1 s2 s1' es hrel h
      | some e =>
        have hstep2' : lateral_step inc u nodeMap2 ev prev cur s2 = some (eshift d e) := by
          rw [hstep2, hstep]; rfl
        rcases hrec : lateral_loop inc u nodeMap1 rest (some cur) (push_edge s1 e)
          with ⟨sA2, es2⟩
        simp only [lateral_loop, hh, hstep, hrec] at h
        injection h with h1 h2
        subst h1; subst h2
        have hrelpush : StoreRel c d (push_edge s1 e) (push_edge s2 (eshift d e)) :=
          storeRel_push_edge c d s1 s2 hrel e (hbnd e hstep)
        obtain ⟨s2', hrun, hrel'⟩ := ih (some cur) (push_edge s1 e)
          (push_edge s2 (eshift d e)) sA2 es2 hrelpush hrec
        refine ⟨s2', ?_, hrel'⟩
        simp only [lateral_loop, hh, hstep2', hrun, List.map_cons]

/-! ## Claim theorems -/


/-- **C1** (the code violates the claim): `auto_generate` is *not* atomic.  The
incident's old graph is deleted and committed in a first transaction before the
rebuild runs in a second one, so at the inter-transaction point the incident's
graph is already empty although the rebuild (which would create one node) has
not happened: a storage failure in the build transaction leaves the graph
neither fully old (it had a node) nor fully new — emptied but not rebuilt. -/
theorem C1_clear_commit_precedes_rebuild :
    (auto_generate_after_clear_commit 7 wStaleStore).nodes.filter
        (fun n => n.incidentId == 7) = []
    ∧ wStaleStore.nodes.filter (fun n => n.incidentId == 7) ≠ []
    ∧ (auto_generate wDbA 7 5 wStaleStore).2.1.length = 1 := by
  refine ⟨by decide, by decide, by decide⟩

/-- **C2** (counterexample): `process_event_for_graph` itself *can* raise — no
failure is caught inside the operation.  On an event whose `host_id` resolves
to no stored host with tactic `initial-access`, `_get_or_create_node` returns
`None` and the flag assignment raises `AttributeError` out of the function. -/
theorem C2_counterexample :
    process_event_for_graph wDbA wEvMissingHost wEmptyStore = .error "AttributeError" := by
  rfl

/-- **C2** (amended): the exception guard lives in the caller
(`create_timeline_event`), not inside `process_event_for_graph`: for every
input the endpoint's graph-update step either commits the successful update or
catches the failure and leaves the store unchanged, so timeline-event creation
always succeeds regardless of graph-update outcome. -/
theorem C2_caller_catches_graph_update_failure (db : Db) (ev : TimelineEvent) (s : GraphStore) :
    process_event_for_graph db ev s = .ok (create_timeline_event_graph_update db ev s)
    ∨ create_timeline_event_graph_update db ev s = s := by
  unfold create_timeline_event_graph_update
  cases h : process_event_for_graph db ev s <;> simp

/-- **C3** (counterexample): the incremental lateral-movement branch never
checks that the resolved source host differs from the event's own host: an
event on host "alpha" whose `source` text is "alpha" resolves to the same
host and creates a self-loop `lateral_movement` edge. -/
theorem C3_counterexample :
    (process_event_for_graph wDbA wEvSelf wEmptyStore).toOption.map
      (fun s => s.edges.any
        (fun e => e.sourceNodeId == e.targetNodeId && e.edgeType == "lateral_movement"))
    = some true := by
  decide

/-- **C6**: the host resolver returns the foreign-key id whenever present
(regardless of the text), otherwise normalizes the text and consults the
hostname index before the ip index, returns `none` when both miss, and a
`none` resolution excludes the entity from every group built by
`group_by_host` (it is never an error). -/
theorem C6_host_resolver_contract :
    (∀ (v : Nat) (text : Option String) (hn ip : List (String × Nat)),
        resolve_host_id (some v) text hn ip = some v)
    ∧ (∀ (t : String) (hn ip : List (String × Nat)) (v : Nat), t ≠ "" →
        alookup hn (pyLower (pyStrip t)) = some v →
        resolve_host_id none (some t) hn ip = some v)
    ∧ (∀ (t : String) (hn ip : List (String × Nat)), t ≠ "" →
        alookup hn (pyLower (pyStrip t)) = none →
        resolve_host_id none (some t) hn ip = alookup ip (pyLower (pyStrip t)))
    ∧ (∀ (t : String) (hn ip : List (String × Nat)), t ≠ "" →
        alookup hn (pyLower (pyStrip t)) = none → alookup ip (pyLower (pyStrip t)) = none →
        resolve_host_id none (some t) hn ip = none)
    ∧ (∀ (hn ip : List (String × Nat)), resolve_host_id none none hn ip = none)
    ∧ (∀ {α : Type} (items : List α) (fkOf : α → Option Nat) (textOf : α → Option String)
        (hn ip : List (String × Nat)) (x : α) (k : Nat),
        x ∈ groupGet (group_by_host items fkOf textOf hn ip) k →
        resolve_host_id (fkOf x) (textOf x) hn ip = some k) := by
  refine ⟨?_, ?_, ?_, ?_, ?_, ?_⟩
  · intro v text hn ip; rfl
  · intro t hn ip v ht hfind; simp [resolve_host_id, ht, hfind]
  · intro t hn ip ht hfind; simp [resolve_host_id, ht, hfind]
  · intro t hn ip ht h1 h2; simp [resolve_host_id, ht, h1, h2]
  · intro hn ip; rfl
  · intro α items fkOf textOf hn ip x k hx
    rw [groupGet_group_by_host] at hx
    have := List.of_mem_filter hx
    simpa using this

/-- Witness for C6 at concrete inputs: a present FK wins over contradicting
text; text "` ALPHA `" resolves through the hostname index; an ip-index hit
after a hostname miss; a double miss yields `none`; and membership in a built
group forces a non-null resolution. -/
theorem C6_host_resolver_contract_witness :
    resolve_host_id (some 9) (some "beta") [("beta", 2)] [] = some 9
    ∧ resolve_host_id none (some " ALPHA ") [("alpha", 1)] [] = some 1
    ∧ resolve_host_id none (some "10.0.0.1") [("alpha", 1)] [("10.0.0.1", 1)] = some 1
    ∧ resolve_host_id none (some "gamma") [("alpha", 1)] [("10.0.0.1", 1)] = none
    ∧ resolve_host_id (some 2) none [] [] = some 2 := by
  refine ⟨C6_host_resolver_contract.1 9 (some "beta") [("beta", 2)] [],
          C6_host_resolver_contract.2.1 " ALPHA " [("alpha", 1)] [] 1 (by decide) (by decide),
          ?_, ?_, C6_host_resolver_contract.1 2 none [] []⟩
  · have h := C6_host_resolver_contract.2.2.1 "10.0.0.1" [("alpha", 1)] [("10.0.0.1", 1)]
      (by decide) (by decide)
    simpa using h
  · exact C6_host_resolver_contract.2.2.2.1 "gamma" [("alpha", 1)] [("10.0.0.1", 1)]
      (by decide) (by decide) (by decide)

/-- **C3** (amended): for a lateral-movement event with truthy `source`, when
the source text resolves to a host of the incident (hostname match first, then
ip-literal match — *without* excluding the event's own host, so the resolved
host may equal the event's host and the created edge may be a self-loop) and
both node fetch-or-creates succeed, the updater appends exactly one
`lateral_movement` edge from the source host's node to the event host's node —
labeled with the event's MITRE technique (or "Lateral Movement"), with tactic,
timestamp, and the activity text as description — unless such an edge already
exists between that ordered pair, in which case nothing is added. -/
theorem C3_lateral_edge_semantics (db : Db) (ev : TimelineEvent) (s0 s1 s4 : GraphStore)
    (hostId : Nat) (tn sn : AttackGraphNode) (sh : CompromisedHost)
    (hHost : ev.hostId = some hostId)
    (hTac : ev.mitreTactic = some "lateral-movement")
    (hSrc : strTruthy ev.source = true)
    (hRes : resolve_event_source db ev = some sh)
    (hTarget : get_or_create_node db ev.incidentId hostId ev.createdBy s0 = (s1, some tn))
    (hSource : get_or_create_node db ev.incidentId sh.id ev.createdBy s1 = (s4, some sn)) :
    process_event_for_graph db ev s0 =
      .ok (if edge_exists_incident s4 ev.incidentId sn.id tn.id "lateral_movement" then s4
           else { s4 with edges := s4.edges ++ [mkEventLateralEdge ev sn tn] })
    ∧ (edge_exists_incident s4 ev.incidentId sn.id tn.id "lateral_movement" = false →
        ((s4.edges ++ [mkEventLateralEdge ev sn tn]).countP
          (fun e => e.incidentId == ev.incidentId && e.sourceNodeId == sn.id &&
                    e.targetNodeId == tn.id && e.edgeType == "lateral_movement")) = 1) := by
  constructor
  · simp only [process_event_for_graph, hHost, hTarget, hTac, step_flag]
    norm_num
    have e1 : ("lateral-movement" = "initial-access") = False := by simp
    have e2 : ("lateral-movement" = "impact") = False := by simp
    simp only [e1, e2, if_false, hSrc, hRes]
    rw [hSource]
    simp only [Prod.fst, Prod.snd, if_true]
    split <;> rfl
  · intro hno
    rw [List.countP_append]
    have h0 : s4.edges.countP
        (fun e => e.incidentId == ev.incidentId && e.sourceNodeId == sn.id &&
                  e.targetNodeId == tn.id && e.edgeType == "lateral_movement") = 0 := by
      rw [List.countP_eq_zero]
      intro e he hp
      have : edge_exists_incident s4 ev.incidentId sn.id tn.id "lateral_movement" = true := by
        unfold edge_exists_incident
        exact List.any_eq_true.mpr ⟨e, he, hp⟩
      rw [hno] at this
      exact Bool.false_ne_true this
    rw [h0]
    simp [mkEventLateralEdge]

/-- Witness for C3 at a concrete input: processing the "beta → alpha" event on
an empty store creates exactly the expected `lateral_movement` edge, and the
edge count for that ordered pair is 1. -/
theorem C3_lateral_edge_semantics_witness :
    process_event_for_graph wDbAB wEvLat wEmptyStore =
      .ok { wC3s4 with edges := wC3s4.edges ++ [mkEventLateralEdge wEvLat wC3sn wC3tn] }
    ∧ ((wC3s4.edges ++ [mkEventLateralEdge wEvLat wC3sn wC3tn]).countP
        (fun e => e.incidentId == wEvLat.incidentId && e.sourceNodeId == wC3sn.id &&
                  e.targetNodeId == wC3tn.id && e.edgeType == "lateral_movement")) = 1 := by
  have h := C3_lateral_edge_semantics wDbAB wEvLat wEmptyStore wC3s1 wC3s4 1 wC3tn wC3sn wHostB
    (by rfl) (by rfl) (by rfl) (by rfl) (by rfl) (by rfl)
  refine ⟨?_, h.2 (by decide)⟩
  have h1 := h.1
  rw [if_neg (by decide)] at h1
  exact h1

/-- **C10**: incident scoping is preserved by both entry points: every created
node and edge carries the triggering incident id, the bulk deletes are filtered
to that incident, and (given store well-formedness for the incremental path,
whose node update is keyed by primary key) nodes and edges of any other
incident survive both operations exactly unchanged. -/
theorem C10_incident_scoping :
    (∀ (db : Db) (inc u : Nat) (s0 : GraphStore),
      (auto_generate db inc u s0).1.nodes.filter (fun n => n.incidentId ≠ inc)
        = s0.nodes.filter (fun n => n.incidentId ≠ inc) ∧
      (auto_generate db inc u s0).1.edges.filter (fun e => e.incidentId ≠ inc)
        = s0.edges.filter (fun e => e.incidentId ≠ inc) ∧
      (∀ n ∈ (auto_generate db inc u s0).2.1, n.incidentId = inc) ∧
      (∀ e ∈ (auto_generate db inc u s0).2.2, e.incidentId = inc)) ∧
    (∀ (db : Db) (ev : TimelineEvent) (s0 s1 : GraphStore), WF s0 →
      process_event_for_graph db ev s0 = .ok s1 →
      s1.nodes.filter (fun n => n.incidentId ≠ ev.incidentId)
        = s0.nodes.filter (fun n => n.incidentId ≠ ev.incidentId) ∧
      s1.edges.filter (fun e => e.incidentId ≠ ev.incidentId)
        = s0.edges.filter (fun e => e.incidentId ≠ ev.incidentId)) := by
  constructor
  · intro db inc u s0
    cases hempty : (hostsOfIncident db inc).isEmpty with
    | true =>
      have hauto : auto_generate db inc u s0 = (clear_graph inc s0, [], []) := by
        simp [auto_generate, hempty]
      rw [hauto]
      refine ⟨?_, ?_, by simp, by simp⟩
      · rw [clear_graph_nodes]; exact filter_idem _ _
      · rw [clear_graph_edges]; exact filter_idem _ _
    | false =>
      obtain ⟨s2, nodeMap, ns, es, s3, netNs, netEs, s4, latEs, hhl, hnl, hll, heq⟩ :=
        auto_generate_cases db inc u s0 hempty
      obtain ⟨a1, a2, a3, a4, a5, a6, a7, a8, a9⟩ :=
        host_loop_spec inc u _ _ _ _ 0 _ s2 [] nodeMap ns es hhl
      obtain ⟨b1, b2, b3, b4, b5, b6⟩ := net_loop_spec inc u nodeMap _ _ _ [] 100 100
        s2 s3 netNs netEs hnl
      obtain ⟨c1, c2, c3, c4⟩ := lateral_loop_spec inc u nodeMap _ none s3 s4 latEs hll
      rw [heq]
      refine ⟨?_, ?_, ?_, ?_⟩
      · simp only [c1, b1, a1, clear_graph_nodes, List.filter_append]
        rw [filter_idem]
        have hns : ns.filter (fun n => n.incidentId ≠ inc) = [] := by
          rw [List.filter_eq_nil_iff]
          intro n hn
          simp [(a4 n hn).2.2]
        have hnet : netNs.filter (fun n => n.incidentId ≠ inc) = [] := by
          rw [List.filter_eq_nil_iff]
          intro n hn
          simp [(b4 n hn).2.2]
        rw [hns, hnet]
        simp
      · simp only [c2, b2, a2, clear_graph_edges, List.filter_append]
        rw [filter_idem]
        have hes : es.filter (fun e => e.incidentId ≠ inc) = [] := by
          rw [List.filter_eq_nil_iff]
          intro e he
          simp [(a5 e he).1]
        have hnet : netEs.filter (fun e => e.incidentId ≠ inc) = [] := by
          rw [List.filter_eq_nil_iff]
          intro e he
          simp [(b5 e he).1]
        have hlat : latEs.filter (fun e => e.incidentId ≠ inc) = [] := by
          rw [List.filter_eq_nil_iff]
          intro e he
          simp [(c4 e he).1]
        rw [hes, hnet, hlat]
        simp
      · intro n hn
        rcases List.mem_append.mp hn with hn | hn
        · exact (a4 n hn).2.2
        · exact (b4 n hn).2.2
      · intro e he
        rcases List.mem_append.mp he with he | he
        · rcases List.mem_append.mp he with he | he
          · exact (a5 e he).1
          · exact (b5 e he).1
        · exact (c4 e he).1
  · intro db ev s0 s1 hwf hok
    obtain ⟨hedges, hnodes⟩ := process_event_ok_spec db ev s0 s1 hok
    refine ⟨hnodes hwf, ?_⟩
    rcases hedges with hE | ⟨sn, tn, _, hE⟩
    · rw [hE]
    · rw [hE, List.filter_append]
      have : [mkEventLateralEdge ev sn tn].filter
          (fun e => e.incidentId ≠ ev.incidentId) = [] := by
        simp [mkEventLateralEdge]
      rw [this]
      simp

/-- Witness for C10: on a store holding incident-8 data, a bulk run and an
incremental update for incident 7 leave the incident-8 rows exactly as they
were. -/
theorem C10_incident_scoping_witness :
    ((auto_generate wDbA 7 5 wMixedStore).1.nodes.filter (fun n => n.incidentId ≠ 7)
      = wMixedStore.nodes.filter (fun n => n.incidentId ≠ 7)) ∧
    (wC10s1.edges.filter (fun e => e.incidentId ≠ 7)
      = wMixedStore.edges.filter (fun e => e.incidentId ≠ 7)) := by
  refine ⟨(C10_incident_scoping.1 wDbA 7 5 wMixedStore).1, ?_⟩
  exact (C10_incident_scoping.2 wDbAB wEvLat wMixedStore wC10s1 (by decide) (by rfl)).2

/-- **C4**: after a bulk run on a well-formed store, and after an incremental
run starting from a graph satisfying the property, no two edges of the
incident's graph share a `(sourceNodeId, targetNodeId, edgeType)` triple —
every guarded insertion checks existence first, and the unguarded insertions
always target a freshly issued node id. -/
theorem C4_edge_triple_uniqueness :
    (∀ (db : Db) (inc u : Nat) (s0 : GraphStore), WF s0 →
      TriplesDistinct ((auto_generate db inc u s0).1.edges.filter
        (fun e => e.incidentId == inc))) ∧
    (∀ (db : Db) (ev : TimelineEvent) (s0 s1 : GraphStore),
      TriplesDistinct (s0.edges.filter (fun e => e.incidentId == ev.incidentId)) →
      process_event_for_graph db ev s0 = .ok s1 →
      TriplesDistinct (s1.edges.filter (fun e => e.incidentId == ev.incidentId))) := by
  have hclear : ∀ (inc : Nat) (s0 : GraphStore),
      (clear_graph inc s0).edges.filter (fun e => e.incidentId == inc) = [] := by
    intro inc s0
    rw [clear_graph_edges, List.filter_eq_nil_iff]
    intro e he hf
    have := List.mem_filter.mp he
    simp at this hf
    exact this.2 hf
  constructor
  · intro db inc u s0 hwf
    cases hempty : (hostsOfIncident db inc).isEmpty with
    | true =>
      have hauto : auto_generate db inc u s0 = (clear_graph inc s0, [], []) := by
        simp [auto_generate, hempty]
      rw [hauto]
      rw [hclear inc s0]
      exact List.Pairwise.nil
    | false =>
      obtain ⟨s2, nodeMap, ns, es, s3, netNs, netEs, s4, latEs, hhl, hnl, hll, heq⟩ :=
        auto_generate_cases db inc u s0 hempty
      have hb1 : EdgesBounded (clear_graph inc s0) := by
        intro e he
        rw [clear_graph_edges] at he
        rw [clear_graph_nextId]
        exact hwf.2.1 e (List.mem_of_mem_filter he)
      have hd1 : TriplesDistinct ((clear_graph inc s0).edges.filter
          (fun e => e.incidentId == inc)) := by
        rw [hclear inc s0]
        exact List.Pairwise.nil
      obtain ⟨hb2, hd2⟩ := host_loop_inv inc u _ _ _ _ 0 _ s2 [] nodeMap ns es hhl hb1 hd1
      obtain ⟨a1, a2, a3, a4, a5, a6, a7, a8, a9⟩ :=
        host_loop_spec inc u _ _ _ _ 0 _ s2 [] nodeMap ns es hhl
      have hnm2 : ∀ q ∈ nodeMap, q.2.id < s2.nextId := by
        intro q hq
        rcases a6 q hq with hq1 | hq1
        · exact absurd hq1 (List.not_mem_nil q)
        · exact hq1.2
      obtain ⟨hb3, hd3⟩ := net_loop_inv inc u nodeMap _ _ _ [] 100 100 s2 s3 netNs netEs
        hnl hnm2 (by intro q hq; exact absurd hq (List.not_mem_nil q)) hb2 hd2
      obtain ⟨b1, b2, b3, b4, b5, b6⟩ := net_loop_spec inc u nodeMap _ _ _ [] 100 100
        s2 s3 netNs netEs hnl
      have hnm3 : ∀ q ∈ nodeMap, q.2.id < s3.nextId := by
        intro q hq
        have := hnm2 q hq
        omega
      obtain ⟨hb4, hd4⟩ := lateral_loop_inv inc u nodeMap _ none s3 s4 latEs hll hnm3 hb3 hd3
      rw [heq]
      exact hd4
  · intro db ev s0 s1 hdist hok
    obtain ⟨hedges, _⟩ := process_event_ok_spec db ev s0 s1 hok
    rcases hedges with hE | ⟨sn, tn, hguard, hE⟩
    · rw [hE]; exact hdist
    · rw [hE]
      apply pairwise_filter_append_singleton _ _ _ hdist
      intro a ha hcon
      obtain ⟨hc1, hc2, hc3⟩ := hcon
      have hamem := List.mem_of_mem_filter ha
      have hainc : (a.incidentId == ev.incidentId) = true := (List.mem_filter.mp ha).2
      have : s0.edges.any (fun e => e.incidentId == ev.incidentId && e.sourceNodeId == sn.id &&
          e.targetNodeId == tn.id && e.edgeType == "lateral_movement") = true := by
        rw [List.any_eq_true]
        refine ⟨a, hamem, ?_⟩
        simp only [mkEventLateralEdge] at hc1 hc2 hc3
        simp only [Bool.and_eq_true, beq_iff_eq]
        exact ⟨⟨⟨by simpa using hainc, hc1⟩, hc2⟩, hc3⟩
      rw [hguard] at this
      exact Bool.false_ne_true this

/-- Witness for C4 at concrete inputs: a bulk rebuild over the two-host
database on a well-formed store, and an incremental lateral-movement update on
a store already satisfying the property. -/
theorem C4_edge_triple_uniqueness_witness :
    TriplesDistinct ((auto_generate wDbAB 7 5 wMixedStore).1.edges.filter
      (fun e => e.incidentId == 7))
    ∧ TriplesDistinct (wC10s1.edges.filter (fun e => e.incidentId == 7)) := by
  constructor
  · exact C4_edge_triple_uniqueness.1 wDbAB 7 5 wMixedStore (by decide)
  · exact C4_edge_triple_uniqueness.2 wDbAB wEvLat wMixedStore wC10s1 (by decide) (by rfl)

/-- **C5**: for every incident with at least one host (and primary-key-distinct
host ids), the bulk build creates exactly one host node per host; the total
node count equals hosts + resolvable accounts + resolvable malware +
resolvable host-indicators + unique `dns_ip` values of resolvable network
indicators; and an unresolvable network indicator contributes nothing — the
network phase is unchanged by dropping unresolvable indicators. -/
theorem C5_bulk_node_count (db : Db) (inc u : Nat) (s0 : GraphStore)
    (hne : hostsOfIncident db inc ≠ [])
    (hnodup : ((hostsOfIncident db inc).map (fun h => h.id)).Nodup) :
    (auto_generate db inc u s0).2.1.length = specNodeCountFormula db inc ∧
    (∀ h ∈ hostsOfIncident db inc,
      (auto_generate db inc u s0).2.1.countP
        (fun n => n.compromisedHostId == some h.id) = 1) ∧
    (∀ (nodeMap : List (Nat × AttackGraphNode)) (hnIdx ipIdx : List (String × Nat))
      (iocs : List NetworkIndicator) (ipMap : List (String × AttackGraphNode))
      (x y : Int) (s : GraphStore),
      net_loop inc u nodeMap hnIdx ipIdx iocs ipMap x y s =
        net_loop inc u nodeMap hnIdx ipIdx (iocs.filter (netResolvable nodeMap hnIdx ipIdx))
          ipMap x y s) := by
  have hempty : (hostsOfIncident db inc).isEmpty = false := List.isEmpty_eq_false.mpr hne
  obtain ⟨s2, nodeMap, ns, es, s3, netNs, netEs, s4, latEs, hhl, hnl, hll, heq⟩ :=
    auto_generate_cases db inc u s0 hempty
  obtain ⟨a1, a2, a3, a4, a5, a6, a7, a8, a9⟩ :=
    host_loop_spec inc u _ _ _ _ 0 _ s2 [] nodeMap ns es hhl
  obtain ⟨b1, b2, b3, b4, b5, b6, b7⟩ := net_loop_spec inc u nodeMap _ _ _ [] 100 100
    s2 s3 netNs netEs hnl
  have hiff : ∀ hid, (alookup nodeMap hid).isSome ↔
      hid ∈ (hostsOfIncident db inc).map (fun h => h.id) := by
    intro hid
    have := a9 hid
    simpa [alookup] using this
  rw [heq]
  refine ⟨?_, ?_, net_loop_filter inc u⟩
  · simp only [List.length_append]
    rw [a7]
    simp only [sub_elements_length]
    rw [map_sum_split, map_sum_add, map_sum_add]
    have hgroup : ∀ {β : Type} (items : List β) (fkOf : β → Option Nat)
        (textOf : β → Option String),
        ((hostsOfIncident db inc).map (fun h =>
          (groupGet (group_by_host items fkOf textOf
            (hostnameToId (hostsOfIncident db inc)) (ipToHostId (hostsOfIncident db inc)))
            h.id).length)).sum
        = items.countP (fun it => resolvesToIncidentHost
            ((hostsOfIncident db inc).map (fun h => h.id))
            (hostnameToId (hostsOfIncident db inc)) (ipToHostId (hostsOfIncident db inc))
            (fkOf it) (textOf it)) := by
      intro β items fkOf textOf
      simp only [groupGet_group_by_host, ← List.countP_eq_length_filter]
      have hmm : ((hostsOfIncident db inc).map (fun h => h.id)).map
          (fun i => items.countP (fun it =>
            resolve_host_id (fkOf it) (textOf it)
              (hostnameToId (hostsOfIncident db inc))
              (ipToHostId (hostsOfIncident db inc)) == some i))
          = (hostsOfIncident db inc).map (fun h =>
            items.countP (fun it =>
              resolve_host_id (fkOf it) (textOf it)
                (hostnameToId (hostsOfIncident db inc))
                (ipToHostId (hostsOfIncident db inc)) == some h.id)) := by
        rw [List.map_map]
        rfl
      rw [← hmm, sum_countP_eq items _ _ hnodup]
      rfl
    rw [hgroup (db.accounts.filter (fun a => a.incidentId == inc))
        (fun a => a.hostId) (fun a => a.hostSystem),
      hgroup (db.malware.filter (fun m => m.incidentId == inc))
        (fun m => m.hostId) (fun m => m.host),
      hgroup (db.hostIndicators.filter (fun hi => hi.incidentId == inc))
        (fun hi => hi.hostId) (fun hi => hi.host)]
    rw [b6]
    simp only [List.map_nil, List.toFinset_nil, Finset.sdiff_empty]
    have hnetvals : netVals nodeMap (hostnameToId (hostsOfIncident db inc))
        (ipToHostId (hostsOfIncident db inc))
        (db.networkIndicators.filter (fun io => io.incidentId == inc))
        = ((db.networkIndicators.filter (fun io => io.incidentId == inc)).filter
            (iocParticipates ((hostsOfIncident db inc).map (fun h => h.id))
              (hostnameToId (hostsOfIncident db inc))
              (ipToHostId (hostsOfIncident db inc)))).map (fun io => io.dnsIp) := by
      unfold netVals
      congr 1
      apply List.filter_congr
      intro io _
      exact netResolvable_eq_participates nodeMap _ _ _ hiff io
    rw [hnetvals]
    unfold specNodeCountFormula
    omega
  · intro h hmem
    rw [List.countP_append, a8 h.id]
    have hz : netNs.countP (fun n => n.compromisedHostId == some h.id) = 0 := by
      rw [List.countP_eq_zero]
      intro n hn
      simp [b7 n hn]
    rw [hz, Nat.add_zero]
    have hcnt : (hostsOfIncident db inc).countP (fun h' => h'.id == h.id)
        = ((hostsOfIncident db inc).map (fun h' => h'.id)).count h.id := by
      have hmapped := List.countP_map (fun i => (i == h.id)) (fun h' => h'.id)
        (hostsOfIncident db inc)
      rw [show ((hostsOfIncident db inc).map (fun h' => h'.id)).count h.id
          = List.countP (fun i => i == h.id)
            ((hostsOfIncident db inc).map (fun h' => h'.id)) from rfl, hmapped]
      rfl
    rw [hcnt]
    exact List.count_eq_one_of_mem hnodup (List.mem_map_of_mem _ hmem)

/-- Witness for C5: on the concrete database the created-node count matches
the formula (2 hosts + 1 account + 1 malware + 1 indicator + 1 unique IOC
value = 6), and host "alpha" receives exactly one host node. -/
theorem C5_bulk_node_count_witness :
    (auto_generate wDbC5 7 5 wEmptyStore).2.1.length = specNodeCountFormula wDbC5 7
    ∧ specNodeCountFormula wDbC5 7 = 6
    ∧ (auto_generate wDbC5 7 5 wEmptyStore).2.1.countP
        (fun n => n.compromisedHostId == some wHostA.id) = 1 := by
  have h := C5_bulk_node_count wDbC5 7 5 wEmptyStore (by decide) (by decide)
  exact ⟨h.1, by rfl, h.2.1 wHostA (by decide)⟩

/-- **C8**: an event with no host reference is a graph no-op: the incremental
updater returns immediately and the store is unchanged (hence node and edge
counts are identical). -/
theorem C8_no_host_noop (db : Db) (ev : TimelineEvent) (s : GraphStore)
    (h : ev.hostId = none) : process_event_for_graph db ev s = .ok s := by
  simp [process_event_for_graph, h]

/-- Witness for C8: a concrete host-less event leaves a concrete store
untouched. -/
theorem C8_no_host_noop_witness :
    process_event_for_graph wDbA wEvNoHost wStaleStore = .ok wStaleStore :=
  C8_no_host_noop wDbA wEvNoHost wStaleStore (by decide)

/-- **C9**: invoked on an incident with zero hosts, `auto_generate` still
deletes (and commits) the incident's whole existing graph before returning the
empty result — the prior graph never survives the rebuild. -/
theorem C9_zero_hosts_still_clears (db : Db) (inc userId : Nat) (s0 : GraphStore)
    (h : hostsOfIncident db inc = []) :
    auto_generate db inc userId s0 = (clear_graph inc s0, [], []) := by
  simp [auto_generate, h]

/-- Witness for C9: an empty database with a stale incident-7 graph — the run
returns the cleared store (stale node gone) and creates nothing. -/
theorem C9_zero_hosts_still_clears_witness :
    auto_generate { hosts := [] } 7 5 wStaleStore = (clear_graph 7 wStaleStore, [], [])
    ∧ (clear_graph 7 wStaleStore).nodes = [] :=
  ⟨C9_zero_hosts_still_clears { hosts := [] } 7 5 wStaleStore (by decide), by decide⟩

theorem filter_ne_then_eq {α : Type _} (f : α → Nat) (k : Nat) (l : List α) :
    (l.filter (fun a => f a ≠ k)).filter (fun a => f a == k) = [] := by
  rw [List.filter_eq_nil_iff]
  intro a ha
  rw [List.mem_filter] at ha
  have h2 := ha.2
  simp only [ne_eq, decide_not, Bool.not_eq_true', decide_eq_false_iff_not] at h2
  simp [h2]

/-- **C7**: running `auto_generate` twice in a row on unchanged source data
yields the same counts both times: the second run creates node and edge lists
of the same lengths as the first, and the incident's graph in the store holds
the same number of nodes and edges after either run.  (The second run's store
starts where the first finished; `EdgesBounded` states that the starting
store's edge endpoints are below its id allocator, as the relational store
guarantees.)  Proved by a simulation argument: both runs clear the incident's
graph down to the same foreign edges and then make identical decisions, the
second run's fresh ids being those of the first shifted by the number of nodes
the first created. -/
theorem C7_rerun_same_counts (db : Db) (inc u : Nat) (s0 : GraphStore)
    (hbd : EdgesBounded s0) :
    ((auto_generate db inc u (auto_generate db inc u s0).1).2.1.length
        = (auto_generate db inc u s0).2.1.length) ∧
    ((auto_generate db inc u (auto_generate db inc u s0).1).2.2.length
        = (auto_generate db inc u s0).2.2.length) ∧
    (((auto_generate db inc u (auto_generate db inc u s0).1).1.nodes.filter
          (fun n => n.incidentId == inc)).length
        = ((auto_generate db inc u s0).1.nodes.filter
          (fun n => n.incidentId == inc)).length) ∧
    (((auto_generate db inc u (auto_generate db inc u s0).1).1.edges.filter
          (fun e => e.incidentId == inc)).length
        = ((auto_generate db inc u s0).1.edges.filter
          (fun e => e.incidentId == inc)).length) := by
  cases hne : (hostsOfIncident db inc).isEmpty with
  | true =>
    simp [auto_generate, hne, clear_graph_nodes, clear_graph_edges, filter_ne_then_eq]
  | false =>
    obtain ⟨s2, nodeMap, ns, es, s3, netNs, netEs, s4, latEs, hhl, hnl, hll, hres1⟩ :=
      auto_generate_cases db inc u s0 hne
    obtain ⟨a1, a2, a3, a4, a5, a6, a7, a8, a9⟩ :=
      host_loop_spec inc u _ _ _ _ _ _ _ _ _ _ _ hhl
    obtain ⟨b1, b2, b3, b4, b5, b6, b7⟩ := net_loop_spec inc u _ _ _ _ _ _ _ _ _ _ _ hnl
    obtain ⟨l1, l2, l3, l4⟩ := lateral_loop_spec inc u _ _ _ _ _ _ hll
    have hs4E : s4.edges = ((clear_graph inc s0).edges ++ es ++ netEs) ++ latEs := by
      rw [l2, b2, a2]
    have hs4N : s4.nextId = s0.nextId + (ns.length + netNs.length) := by
      rw [l3, b3, a3, clear_graph_nextId]
      omega
    have hesnil : es.filter (fun e => e.incidentId ≠ inc) = [] := by
      rw [List.filter_eq_nil_iff]
      intro e he
      simp [(a5 e he).1]
    have hnetnil : netEs.filter (fun e => e.incidentId ≠ inc) = [] := by
      rw [List.filter_eq_nil_iff]
      intro e he
      simp [(b5 e he).1]
    have hlatnil : latEs.filter (fun e => e.incidentId ≠ inc) = [] := by
      rw [List.filter_eq_nil_iff]
      intro e he
      simp [(l4 e he).1]
    have ht1E : (clear_graph inc s4).edges = (clear_graph inc s0).edges := by
      rw [clear_graph_edges, hs4E, List.filter_append, List.filter_append,
        List.filter_append, hesnil, hnetnil, hlatnil, clear_graph_edges, filter_idem]
      simp
    have ht1N : (clear_graph inc s4).nextId
        = (clear_graph inc s0).nextId + (ns.length + netNs.length) := by
      rw [clear_graph_nextId, clear_graph_nextId, hs4N]
    have hrel : StoreRel s0.nextId (ns.length + netNs.length)
        (clear_graph inc s0) (clear_graph inc s4) := by
      refine ⟨ht1N, ?_, (clear_graph inc s0).edges, [], by simp, by simp [ht1E], ?_, by simp⟩
      · rw [clear_graph_nextId]
      · intro e he
        rw [clear_graph_edges] at he
        exact hbd e (List.mem_of_mem_filter he)
    obtain ⟨t2, m2', hhl2, hrel2, hmrel2⟩ := host_loop_sim inc u s0.nextId
      (ns.length + netNs.length) _ _ _ _ 0 (clear_graph inc s0) (clear_graph inc s4)
      s2 [] [] nodeMap ns es hrel ⟨rfl, by simp⟩ hhl
    obtain ⟨t3, hnl2, hrel3⟩ := net_loop_sim inc u s0.nextId (ns.length + netNs.length)
      nodeMap m2' _ _ hmrel2 _ [] [] 100 100 s2 t2 s3 netNs netEs hrel2 ⟨rfl, by simp⟩ hnl
    obtain ⟨t4, hll2, hrel4⟩ := lateral_loop_sim inc u s0.nextId (ns.length + netNs.length)
      nodeMap m2' hmrel2 _ none s3 t3 s4 latEs hrel3 hll
    have hres2 : auto_generate db inc u s4
        = (t4, ns.map (nshift (ns.length + netNs.length))
              ++ netNs.map (nshift (ns.length + netNs.length)),
            es.map (eshift (ns.length + netNs.length))
              ++ netEs.map (eshift (ns.length + netNs.length))
              ++ latEs.map (eshift (ns.length + netNs.length))) := by
      simp only [auto_generate, hne, Bool.false_eq_true, if_false, hhl2, hnl2, hll2]
    obtain ⟨a1', a2', a3', a4', a5', a6', a7', a8', a9'⟩ :=
      host_loop_spec inc u _ _ _ _ _ _ _ _ _ _ _ hhl2
    obtain ⟨b1', b2', b3', b4', b5', b6', b7'⟩ :=
      net_loop_spec inc u _ _ _ _ _ _ _ _ _ _ _ hnl2
    obtain ⟨l1', l2', l3', l4'⟩ := lateral_loop_spec inc u _ _ _ _ _ _ hll2
    have hrun1N : (s4.nodes.filter (fun n => n.incidentId == inc)).length
        = ns.length + netNs.length := by
      have h1 : ns.filter (fun n => n.incidentId == inc) = ns :=
        List.filter_eq_self.mpr (fun n hn => by simp [(a4 n hn).2.2])
      have h2 : netNs.filter (fun n => n.incidentId == inc) = netNs :=
        List.filter_eq_self.mpr (fun n hn => by simp [(b4 n hn).2.2])
      rw [l1, b1, a1, clear_graph_nodes, List.filter_append, List.filter_append,
        filter_ne_then_eq, h1, h2]
      simp
    have hrun1E : (s4.edges.filter (fun e => e.incidentId == inc)).length
        = es.length + netEs.length + latEs.length := by
      have h1 : es.filter (fun e => e.incidentId == inc) = es :=
        List.filter_eq_self.mpr (fun e he => by simp [(a5 e he).1])
      have h2 : netEs.filter (fun e => e.incidentId == inc) = netEs :=
        List.filter_eq_self.mpr (fun e he => by simp [(b5 e he).1])
      have h3 : latEs.filter (fun e => e.incidentId == inc) = latEs :=
        List.filter_eq_self.mpr (fun e he => by simp [(l4 e he).1])
      rw [hs4E, clear_graph_edges, List.filter_append, List.filter_append,
        List.filter_append, filter_ne_then_eq, h1, h2, h3]
      simp
      omega
    have hrun2N : (t4.nodes.filter (fun n => n.incidentId == inc)).length
        = ns.length + netNs.length := by
      have h1 : (ns.map (nshift (ns.length + netNs.length))).filter
            (fun n => n.incidentId == inc)
          = ns.map (nshift (ns.length + netNs.length)) :=
        List.filter_eq_self.mpr (fun n hn => by simp [(a4' n hn).2.2])
      have h2 : (netNs.map (nshift (ns.length + netNs.length))).filter
            (fun n => n.incidentId == inc)
          = netNs.map (nshift (ns.length + netNs.length)) :=
        List.filter_eq_self.mpr (fun n hn => by simp [(b4' n hn).2.2])
      rw [l1', b1', a1', clear_graph_nodes, List.filter_append, List.filter_append,
        filter_ne_then_eq, h1, h2]
      simp
    have hrun2E : (t4.edges.filter (fun e => e.incidentId == inc)).length
        = es.length + netEs.length + latEs.length := by
      have h1 : (es.map (eshift (ns.length + netNs.length))).filter
            (fun e => e.incidentId == inc)
          = es.map (eshift (ns.length + netNs.length)) :=
        List.filter_eq_self.mpr (fun e he => by simp [(a5' e he).1])
      have h2 : (netEs.map (eshift (ns.length + netNs.length))).filter
            (fun e => e.incidentId == inc)
          = netEs.map (eshift (ns.length + netNs.length)) :=
        List.filter_eq_self.mpr (fun e he => by simp [(b5' e he).1])
      have h3 : (latEs.map (eshift (ns.length + netNs.length))).filter
            (fun e => e.incidentId == inc)
          = latEs.map (eshift (ns.length + netNs.length)) :=
        List.filter_eq_self.mpr (fun e he => by simp [(l4' e he).1])
      rw [l2', b2', a2', clear_graph_edges, List.filter_append, List.filter_append,
        List.filter_append, filter_ne_then_eq, h1, h2, h3]
      simp
      omega
    refine ⟨?_, ?_, ?_, ?_⟩
    · simp only [hres1, hres2, List.length_append, List.length_map]
    · simp only [hres1, hres2, List.length_append, List.length_map]
    · simp only [hres1, hres2]
      rw [hrun2N, hrun1N]
    · simp only [hres1, hres2]
      rw [hrun2E, hrun1E]

/-- Witness for C7: on the two-host database, re-running the bulk build on the
store the first run produced creates the same number of nodes as the first
run did. -/
theorem C7_rerun_same_counts_witness :
    EdgesBounded wEmptyStore ∧
    ((auto_generate wDbAB 7 5 (auto_generate wDbAB 7 5 wEmptyStore).1).2.1.length
        = (auto_generate wDbAB 7 5 wEmptyStore).2.1.length) :=
  ⟨by decide, (C7_rerun_same_counts wDbAB 7 5 wEmptyStore (by decide)).1⟩

end SheetStorm
